import Mathlib

set_option linter.unusedVariables false

/-! Shallow embedding of the PatternEmitter class of sfast/pattern-emitter-ts
(the v0.3.0 revision: the implementation that extends Node's EventEmitter and
carries the listener cache, `src/unnamed/part_004` lines 334-797), together
with the pieces of Node's EventEmitter it builds on (addListener,
removeListener, removeAllListeners, listeners, once wrappers, emit).

Listener callables are identified by natural numbers.  A regular expression is
modelled as its canonical key string (the result of `String(regex)`) together
with a test predicate on strings.  The `idx` property that `wrapListener`
attaches in place to a listener function object is modelled as a finite map
from listener identity to the assigned index.  JS `Map`s are modelled as
association lists in insertion order, matching `Map.set` / `Map.get` /
`Map.delete` / `forEach` semantics. -/

/-- Event identifier: a string or a symbol token (source type
`EventEmitterType = string | symbol`, src/src/types.ts). -/
inductive EventEmitterType where
  | str (s : String)
  | sym (n : Nat)
deriving DecidableEq, Repr

/-- A regular expression: its canonical string key (`String(regex)`, i.e.
"/source/flags") and its `test` predicate on strings. -/
structure Rgx where
  key : String
  test : String → Bool

/-- Event key: a regex pattern or a plain identifier (source type
`EventPattern = RegExp | EventEmitterType`, src/src/types.ts). -/
inductive EventPattern where
  | ev (t : EventEmitterType)
  | re (r : Rgx)

/-- First-match lookup in an association list (JS `Map.get`). -/
def getv {α β : Type} [DecidableEq α] : List (α × β) → α → Option β
  | [], _ => none
  | p :: ps, k => if p.1 = k then some p.2 else getv ps k

/-- JS `Map.set`: update the existing entry in place, else append at the end. -/
def jsSet {α β : Type} [DecidableEq α] : List (α × β) → α → β → List (α × β)
  | [], k, v => [(k, v)]
  | p :: ps, k, v => if p.1 = k then (k, v) :: ps else p :: jsSet ps k v

/-- JS `Map.delete`. -/
def jsDelete {α β : Type} [DecidableEq α] (m : List (α × β)) (k : α) : List (α × β) :=
  m.filter (fun p => p.1 != k)

/-- An entry of a Node EventEmitter bucket: either a plainly registered
listener, or the wrapper object created by Node's `once` (a distinct function
`w` whose `.listener` property points back at the original listener `f`). -/
inductive NodeEntry where
  | plain (f : Nat)
  | onceW (w : Nat) (f : Nat)
deriving DecidableEq, Repr

/-- The function Node's `listeners()` reports for an entry: once wrappers are
unwrapped to the original listener (`l.listener || l`). -/
def NodeEntry.target : NodeEntry → Nat
  | .plain f => f
  | .onceW _ f => f

/-- The function object actually stored in the bucket (`list[i]`). -/
def NodeEntry.funId : NodeEntry → Nat
  | .plain f => f
  | .onceW w _ => w

/-- Node's removeListener match test:
`list[i] === listener || list[i].listener === listener`. -/
def nodeMatches (g : Nat) : NodeEntry → Bool
  | .plain f => f == g
  | .onceW w f => w == g || f == g

/-- The state of one PatternEmitter instance, plus the process-global pieces it
reads (the static `_globalListenerIndex` counter and the `idx` properties
attached in place to listener function objects). -/
structure PE where
  globalIdx : Nat
  idxOf : List (Nat × Nat)
  events : List (EventEmitterType × List NodeEntry)
  regexMap : List (String × Rgx)
  patBuckets : List (String × List Nat)
  actualListeners : List (Nat × Nat)
  regexesCount : Int
  cache : List (EventEmitterType × List Nat)

/-- A fresh emitter (constructor state; the global counter starts at 1). -/
def initPE : PE :=
  ⟨1, [], [], [], [], [], 0, []⟩

/-- wrapListener (part_004:770-778): if the listener already carries an `idx`
property it is returned unchanged; otherwise the next value of the global
counter is attached to it in place.  The returned listener is the argument
itself. -/
def wrapListener (S : PE) (f : Nat) : PE :=
  match getv S.idxOf f with
  | some _ => S
  | none =>
    { S with idxOf := jsSet S.idxOf f S.globalIdx, globalIdx := S.globalIdx + 1 }

/-- The `idx` property of a listener (0 when unassigned; every listener stored
by the real code has passed `wrapListener`, so the default is never read on
faithful states). -/
def idxVal (S : PE) (f : Nat) : Nat :=
  (getv S.idxOf f).getD 0

/-- The raw Node bucket for an identifier. -/
def superListenersRaw (S : PE) (t : EventEmitterType) : List NodeEntry :=
  (getv S.events t).getD []

/-- Node's `listeners(type)`: a copy of the bucket with once wrappers
unwrapped to the original listeners. -/
def superListeners (S : PE) (t : EventEmitterType) : List Nat :=
  (superListenersRaw S t).map NodeEntry.target

/-- Node's `addListener`: append the entry to the bucket. -/
def superAddListener (S : PE) (t : EventEmitterType) (e : NodeEntry) : PE :=
  { S with events := jsSet S.events t (superListenersRaw S t ++ [e]) }

/-- Remove the first element satisfying the predicate. -/
def removeFirst {α : Type} (p : α → Bool) : List α → List α
  | [] => []
  | x :: xs => if p x then xs else x :: removeFirst p xs

/-- Node's `removeListener`: scan the bucket backwards and remove the last
entry matching the listener by identity (or whose `.listener` is it); the
event key is dropped when its bucket becomes empty. -/
def superRemoveListener (S : PE) (t : EventEmitterType) (g : Nat) : PE :=
  let l := superListenersRaw S t
  let l2 := (removeFirst (nodeMatches g) l.reverse).reverse
  { S with
    events := if l2.isEmpty then jsDelete S.events t else jsSet S.events t l2 }

/-- Node's `removeAllListeners(type)`. -/
def superRemoveAll (S : PE) (t : EventEmitterType) : PE :=
  { S with events := jsDelete S.events t }

/-- `_clearListenerCache` (part_004:785-787). -/
def clearCache (S : PE) : PE :=
  { S with cache := [] }

/-- patternListeners (part_004:667-676): the bucket stored under the regex's
canonical string, or the empty list. -/
def patternListeners (S : PE) (r : Rgx) : List Nat :=
  (getv S.patBuckets r.key).getD []

/-- The regex half of getMatchingListeners: walk `_regexMap` in insertion
order and concatenate the pattern buckets of every regex whose test accepts
the emitted string (part_004:699-705, the `forEach` push loop). -/
def regexMatchList (S : PE) (s : String) : List (String × Rgx) → List Nat
  | [] => []
  | kv :: rest =>
    (if kv.2.test s then patternListeners S kv.2 else []) ++ regexMatchList S s rest

/-- Fuel-indexed body of the merge loop of _mergeSortedListeners; the fuel
passed by `mergeSortedListeners` (the total length) always suffices, the
zero-fuel branch is never reached. -/
def mergeFuel (S : PE) : Nat → List Nat → List Nat → List Nat
  | 0, _, l2 => l2
  | _ + 1, [], l2 => l2
  | _ + 1, a :: l1, [] => a :: l1
  | n + 1, a :: l1, b :: l2 =>
    if idxVal S a ≤ idxVal S b then a :: mergeFuel S n l1 (b :: l2)
    else b :: mergeFuel S n (a :: l1) l2

/-- _mergeSortedListeners (part_004:735-768): merge two listener arrays by
their attached `idx`, preferring the first array on ties. -/
def mergeSortedListeners (S : PE) (l1 l2 : List Nat) : List Nat :=
  mergeFuel S (l1.length + l2.length) l1 l2

/-- getMatchingListeners (part_004:693-728): non-string identifiers resolve to
no listeners at all; for strings, the pattern-bucket listeners of every
matching regex are concatenated in regex-map insertion order, merged with the
exact-bucket listeners by `idx`, and mapped through the wrapped-to-original
table (entries not in the table are already originals). -/
def getMatchingListeners (S : PE) (t : EventEmitterType) : List Nat :=
  match t with
  | .sym _ => []
  | .str s =>
    (mergeSortedListeners S (regexMatchList S s S.regexMap)
        (superListeners S (.str s))).map
      (fun e => (getv S.actualListeners e).getD e)

/-- addListener (part_004:483-528): invalidate the cache; for a plain key,
attach an `idx` to the listener and delegate to the base EventEmitter; for a
regex, attach the `idx`, record the wrapped-to-original association, store the
regex under its canonical string, insert the listener into the pattern bucket
at its `idx`-sorted position, and bump `_regexesCount`. -/
def insertByIdx (S : PE) (newIdx : Nat) (f : Nat) : List Nat → List Nat
  | [] => [f]
  | a :: rest =>
    if newIdx < idxVal S a then f :: a :: rest else a :: insertByIdx S newIdx f rest

def addListener (S : PE) (k : EventPattern) (f : Nat) : PE :=
  let S0 := clearCache S
  match k with
  | .ev t => superAddListener (wrapListener S0 f) t (.plain f)
  | .re r =>
    let S1 := wrapListener S0 f
    let S2 := { S1 with actualListeners := jsSet S1.actualListeners f f }
    let S3 :=
      if (getv S2.regexMap r.key).isSome then S2
      else { S2 with regexMap := jsSet S2.regexMap r.key r }
    let bucket := (getv S3.patBuckets r.key).getD []
    { S3 with
      patBuckets := jsSet S3.patBuckets r.key (insertByIdx S3 (idxVal S3 f) f bucket),
      regexesCount := S3.regexesCount + 1 }

/-- removeListener (part_004:539-583): invalidate the cache; for a plain key
delegate to the base EventEmitter; for a regex, look the listener up in the
wrapped-to-original table, filter every occurrence of the wrapped listener out
of the pattern bucket, drop the table entry, delete the bucket and stored
regex when the bucket becomes empty, and decrement `_regexesCount` — all of
this only when both the bucket and the table entry exist. -/
def removeListener (S : PE) (k : EventPattern) (f : Nat) : PE :=
  let S0 := clearCache S
  match k with
  | .ev t => superRemoveListener S0 t f
  | .re r =>
    match getv S0.patBuckets r.key,
        (S0.actualListeners.find? (fun p => p.2 == f)).map (fun p => p.1) with
    | some bucket, some w =>
      let bucket2 := bucket.filter (fun x => x != w)
      let S1 := { S0 with actualListeners := jsDelete S0.actualListeners w }
      let S2 :=
        if bucket2.isEmpty then
          { S1 with
            patBuckets := jsDelete S1.patBuckets r.key,
            regexMap := jsDelete S1.regexMap r.key }
        else { S1 with patBuckets := jsSet S1.patBuckets r.key bucket2 }
      { S2 with regexesCount := S2.regexesCount - 1 }
    | _, _ => S0

/-- removeAllListeners (part_004:592-624): with no argument, clear everything;
for a plain key, clear that Node bucket; for a regex, drop the bucket and the
stored regex, drop the bucket's wrapped listeners from the table, and
decrement `_regexesCount` once (regardless of the bucket's size). -/
def removeAllListeners (S : PE) (k : Option EventPattern) : PE :=
  let S0 := clearCache S
  match k with
  | none =>
    { S0 with events := [], patBuckets := [], regexMap := [],
              regexesCount := 0, actualListeners := [] }
  | some (.ev t) => superRemoveAll S0 t
  | some (.re r) =>
    match getv S0.patBuckets r.key with
    | some bucket =>
      { S0 with
        actualListeners := bucket.foldl (fun m x => jsDelete m x) S0.actualListeners,
        patBuckets := jsDelete S0.patBuckets r.key,
        regexMap := jsDelete S0.regexMap r.key,
        regexesCount := S0.regexesCount - 1 }
    | none => S0

/-- once (part_004:460-473).  For a plain key the original listener gets an
`idx` and registration is delegated to `super.once`, whose Node wrapper is
itself routed through `this.on = addListener` (so the wrapper also passes
`wrapListener`) and stored as a once entry.  For a regex key a fresh closure
`w` (which calls the listener and then removes itself) is registered through
`addListener` like any other pattern listener. -/
def once (S : PE) (k : EventPattern) (f : Nat) (w : Nat) : PE :=
  match k with
  | .ev t =>
    let S1 := wrapListener S f
    let S2 := clearCache S1
    let S3 := wrapListener S2 w
    superAddListener S3 t (.onceW w f)
  | .re r => addListener S (.re r) w

/-- The invoked-listener list and return value of the fast path of emit
(part_004:436-438, `super.emit`) when no exception escapes: the exact
bucket's listeners in insertion order (once wrappers invoke their original
listener), and `true` iff the bucket is non-empty.  Node's `super.emit` has
one exceptional case, modelled separately by `fastEmitThrows`: on the
reserved identifier `'error'` with no error listener installed it throws
(`ERR_UNHANDLED_ERROR`, lib/events.js) instead of returning. -/
def fastEmitPair (S : PE) (t : EventEmitterType) : List Nat × Bool :=
  ((superListenersRaw S t).map NodeEntry.target, !(superListenersRaw S t).isEmpty)

/-- Whether the fast path throws instead of dispatching: Node's
`EventEmitter.prototype.emit` sets `doError` for `type === 'error'` and, when
no `'error'` handler is installed, throws the error argument or
`ERR_UNHANDLED_ERROR` before any dispatch.  The general Matcher/Cache path
(part_004:440-452) has no such special case — its `forEach` over the resolved
list simply runs and `matchingListeners.length > 0` is returned. -/
def fastEmitThrows (S : PE) (t : EventEmitterType) : Bool :=
  match t with
  | .str s => s == "error" && (superListenersRaw S (.str s)).isEmpty
  | .sym _ => false

/-- The state effect of the fast path: every once wrapper in the (snapshot)
bucket removes itself via `this.target.removeListener`, which is the
PatternEmitter override and hence also clears the cache. -/
def fastEmitState (S : PE) (t : EventEmitterType) : PE :=
  (superListenersRaw S t).foldl
    (fun acc e =>
      match e with
      | .plain _ => acc
      | .onceW w _ => superRemoveListener (clearCache acc) t w)
    S

/-- The invoked-listener list and return value of the general Matcher/Cache
path of emit (part_004:440-452): the cached list for the identifier if one
exists, else a fresh getMatchingListeners computation; return `true` iff the
list is non-empty. -/
def generalEmitPair (S : PE) (t : EventEmitterType) : List Nat × Bool :=
  match getv S.cache t with
  | some l => (l, !l.isEmpty)
  | none =>
    let l := getMatchingListeners S t
    (l, !l.isEmpty)

/-- The cache fill of the general path: a miss stores the computed list. -/
def generalEmitState (S : PE) (t : EventEmitterType) : PE :=
  match getv S.cache t with
  | some _ => S
  | none => { S with cache := jsSet S.cache t (getMatchingListeners S t) }

/-- emit (part_004:434-453): when `_regexesCount` is zero, delegate to the
base EventEmitter; otherwise resolve the listener list through the cache (or
getMatchingListeners on a miss, storing the result) and invoke each listener
in order.  Returns the invoked listeners in order, the boolean result, and the
post-state.  Listener bodies are treated as effect-free here; the effectful
dispatch loop is modelled separately by `dispatchExc`. -/
def emitStep (S : PE) (t : EventEmitterType) : List Nat × Bool × PE :=
  if S.regexesCount = 0 then
    ((fastEmitPair S t).1, (fastEmitPair S t).2, fastEmitState S t)
  else
    ((generalEmitPair S t).1, (generalEmitPair S t).2, generalEmitState S t)

/-- listeners (part_004:632-640): the direct-bucket accessor — for a regex,
exactly that pattern bucket; for a plain key, exactly the base EventEmitter
bucket (no pattern matches mixed in). -/
def listeners (S : PE) (k : EventPattern) : List Nat :=
  match k with
  | .re r => patternListeners S r
  | .ev t => superListeners S t

/-- listenerCount (part_004:658-660, via matchingListenerCount 684-686): the
length of the getMatchingListeners result. -/
def listenerCount (S : PE) (t : EventEmitterType) : Nat :=
  (getMatchingListeners S t).length

/-- The sequence numbers carried by every registration record currently
stored: the `idx` of each stored function in every Node bucket followed by
the `idx` of each listener in every pattern bucket. -/
def recordSeqs (S : PE) : List Nat :=
  S.events.foldl (fun a kv => a ++ kv.2.map (fun e => idxVal S e.funId)) [] ++
    S.patBuckets.foldl (fun a kv => a ++ kv.2.map (idxVal S)) []

/-- One operation of a registration/emission history. -/
inductive Op where
  | add (k : EventPattern) (f : Nat)
  | remove (k : EventPattern) (f : Nat)
  | removeAll (k : Option EventPattern)
  | onceOp (k : EventPattern) (f : Nat) (w : Nat)
  | emit (t : EventEmitterType)

/-- Whether an operation mutates the registration state. -/
def Op.isMutation : Op → Bool
  | .emit _ => false
  | _ => true

/-- Apply one operation; emits report the listeners they invoked. -/
def applyOp (S : PE) : Op → PE × List Nat
  | .add k f => (addListener S k f, [])
  | .remove k f => (removeListener S k f, [])
  | .removeAll k => (removeAllListeners S k, [])
  | .onceOp k f w => (once S k f w, [])
  | .emit t =>
    ((emitStep S t).2.2, (emitStep S t).1)

/-- Run a history from a fresh emitter, collecting the invocation log. -/
def runPE (ops : List Op) : PE × List Nat :=
  ops.foldl (fun acc op => ((applyOp acc.1 op).1, acc.2 ++ (applyOp acc.1 op).2))
    (initPE, [])

/-- The dispatch loop of emit (`matchingListeners.forEach` invoking each
listener; part_004:448-450) when listener bodies may throw: a throwing
listener aborts the loop (forEach does not catch), so the result is the list
of listeners that ran to completion before the throw and whether a throw
escaped emit. -/
def dispatchExc (throws : Nat → Bool) : List Nat → List Nat × Bool
  | [] => ([], false)
  | f :: rest =>
    if throws f then ([], true)
    else
      ((f :: (dispatchExc throws rest).1), (dispatchExc throws rest).2)

/-- emit under the throwing-listener model: dispatch the resolved list. -/
def emitExc (S : PE) (t : EventEmitterType) (throws : Nat → Bool) :
    List Nat × Bool :=
  dispatchExc throws (emitStep S t).1

/-- The regex /a/: tests whether the string contains an "a". -/
def alwaysR : Rgx := ⟨"/a/", fun s => s.data.contains 'a'⟩

/-- The regex /b$/: tests whether the string ends in "b". -/
def bAlwaysR : Rgx := ⟨"/b$/", fun s => s.data.getLast? == some 'b'⟩

/-- The regex /x/: tests whether the string contains an "x". -/
def neverR : Rgx := ⟨"/x/", fun s => s.data.contains 'x'⟩

/-- Cache validity: every cached entry equals a fresh getMatchingListeners
computation on the current state.  Reachable states satisfy this because
every mutation clears the whole cache and emit only stores fresh results. -/
abbrev cacheValid (S : PE) : Prop :=
  ∀ kv ∈ S.cache, kv.2 = getMatchingListeners S kv.1

/-- In this revision wrapListener returns its argument unchanged, so
`_actualListeners.set(wrappedListener, listener)` only ever stores identity
pairs. -/
abbrev ActId (S : PE) : Prop :=
  ∀ p ∈ S.actualListeners, p.1 = p.2

/-- Every listener reachable from a bucket (Node buckets report their
unwrapped targets; pattern buckets hold listeners directly). -/
def storedFuns (S : PE) : List Nat :=
  S.events.flatMap (fun kv => kv.2.map NodeEntry.target) ++
    S.patBuckets.flatMap (fun kv => kv.2)

/-- Every stored listener has passed wrapListener and carries an idx. -/
abbrev WrappedInv (S : PE) : Prop :=
  ∀ f ∈ storedFuns S, (getv S.idxOf f).isSome = true

/-- The regex map is keyed by the canonical string of the stored regex
(addListener stores `regexMap.set(String(type), type)`). -/
abbrev KeyedInv (S : PE) : Prop :=
  ∀ kv ∈ S.regexMap, kv.1 = kv.2.key

/-- A non-empty pattern bucket has its regex stored in the regex map. -/
abbrev PairedInv (S : PE) : Prop :=
  ∀ kv ∈ S.patBuckets, kv.2 ≠ [] → (getv S.regexMap kv.1).isSome = true

/-- The registration history of claim C1's counterexample: two distinct
patterns that both match the emitted identifier, with the first pattern
receiving a second listener after the second pattern got its first. -/
def run1 : List Op :=
  [.add (.re alwaysR) 10, .add (.re bAlwaysR) 11, .add (.re alwaysR) 12,
   .emit (.str "ab")]

/-- The history of claim C3's counterexample: a once listener on an exact
key, an unrelated pattern registration (so emission takes the pattern path),
and two emissions of the exact key. -/
def run3 : List Op :=
  [.onceOp (.ev (.str "e")) 5 6, .add (.re neverR) 7,
   .emit (.str "e"), .emit (.str "e")]

/-- The state of claim C2's counterexample: a listener on an exact symbol key
plus one pattern registration. -/
def run2 : List Op := [.add (.ev (.sym 0)) 5, .add (.re neverR) 7]

/-- Claim C4's counterexample state: one pattern listener already present. -/
def S4 : PE := (runPE [.add (.re alwaysR) 5]).1

/-- The register-then-unregister round trip of the same (pattern, listener)
pair on top of S4. -/
def S4rt : PE := removeListener (addListener S4 (.re alwaysR) 5) (.re alwaysR) 5

/-- Claim C5's counterexample history: two pattern listeners, an emission
that populates the cache, then two removeListener calls that each name the
wrong pattern for their listener: each decrements `_regexesCount` without
removing anything, driving the counter to zero while both registrations
remain. -/
def opsD : List Op :=
  [.add (.re alwaysR) 5, .add (.re bAlwaysR) 6, .emit (.str "a"),
   .remove (.re bAlwaysR) 5, .remove (.re alwaysR) 6]

/-- The drifted state reached by opsD. -/
def Sd : PE := (runPE opsD).1

/-- A state with one exact-symbol listener and nothing else. -/
def S6 : PE := (runPE [.add (.ev (.sym 0)) 5]).1

/-- Claim C8's counterexample history: the same callable registered under an
exact key and then under a pattern key. -/
def run8 : List Op := [.add (.ev (.str "a")) 5, .add (.re bAlwaysR) 5]

/-- A state with two listeners on one pattern, for the throw dispatch
witness. -/
def S9 : PE := (runPE [.add (.re alwaysR) 5, .add (.re alwaysR) 6]).1

/-- CLAIM C1 (code bug evaluation).  The spec demands that emit invoke
listeners strictly in ascending registration-sequence order for every
registration history.  In run1 the listeners with sequence numbers 1, 2, 3
are invoked in the order 1, 3, 2: getMatchingListeners concatenates the
per-pattern buckets in regex-map insertion order and _mergeSortedListeners
assumes that concatenation is globally sorted, which fails once registrations
to two matching patterns interleave. -/
theorem c1_merge_breaks_sequence_order :
    (runPE run1).2 = [10, 12, 11] ∧
    (runPE run1).2.map (idxVal (runPE run1).1) = [1, 3, 2] ∧
    ¬ List.Sorted (fun a b => a ≤ b) ((runPE run1).2.map (idxVal (runPE run1).1)) := by
  refine ⟨by decide, by decide, ?_⟩
  have h2 : (runPE run1).2.map (idxVal (runPE run1).1) = [1, 3, 2] := by decide
  rw [h2]
  decide

/-- CLAIM C2 (code bug evaluation).  The spec demands that emit return true
and invoke the matching listeners whenever at least one exists; in run2 the
symbol identifier has exact listener 5, yet because one pattern registration
exists emit takes the pattern path, which resolves every non-string
identifier to the empty list: it invokes nothing and returns false. -/
theorem c2_emit_symbol_false_despite_listener :
    superListeners (runPE run2).1 (.sym 0) = [5] ∧
    (emitStep (runPE run2).1 (.sym 0)).1 = [] ∧
    (emitStep (runPE run2).1 (.sym 0)).2.1 = false := by
  decide

/-- CLAIM C3 (code bug evaluation).  The spec demands that a once listener be
invoked at most one time in total.  In run3, listener 5 is registered via
once on the exact key "e"; because a pattern registration exists, both
emissions of "e" take the pattern path, which unwraps Node's once wrapper and
invokes the original listener directly — the wrapper never fires, never
removes itself, and listener 5 is invoked on both emissions. -/
theorem c3_once_exact_fires_twice_under_pattern_path :
    (runPE run3).2 = [5, 5] ∧ ((runPE run3).2.count 5 = 2) := by
  decide

/-- CLAIM C4 (counterexample).  Registering listener 5 on pattern alwaysR and
immediately unregistering it does not restore the observable match set when
listener 5 was already registered under that same pattern: removeListener
filters every occurrence of the callable out of the bucket, so the
pre-existing registration disappears too and listenerCount drops from 1 to
0. -/
theorem c4_roundtrip_not_identity_on_duplicate :
    listenerCount S4 (.str "a") = 1 ∧ listenerCount S4rt (.str "a") = 0 := by
  decide

/-- CLAIM C5 (counterexample).  In the drifted state Sd the identifier "a"
was previously cached, every mutation since cleared the cache, and a cold
getMatchingListeners computation resolves [5]; yet the very next emit
invokes nothing and returns false, because the two mismatched removeListener
calls drove `_regexesCount` to zero and emit takes the fast path, skipping
the still-registered patterns. -/
theorem c5_counter_drift_fastpath_misses_patterns :
    Sd.regexesCount = 0 ∧ Sd.cache = [] ∧
    getMatchingListeners Sd (.str "a") = [5] ∧
    (emitStep Sd (.str "a")).1 = [] ∧ (emitStep Sd (.str "a")).2.1 = false := by
  decide

/-- CLAIM C6 (counterexample).  With zero pattern registrations the fast path
and the general Matcher/Cache path disagree on symbol identifiers: for the
exact-symbol listener in S6 the fast path invokes listener 5 and returns
true, while the general path resolves the empty list and returns false. -/
theorem c6_fastpath_differs_for_symbols :
    S6.patBuckets = [] ∧
    fastEmitPair S6 (.sym 0) = ([5], true) ∧
    generalEmitPair S6 (.sym 0) = ([], false) := by
  decide

/-- CLAIM C7 (counterexample).  listenerCount does not always count the
merged match set: for the symbol identifier in S6 it reports 0 although emit
(fast path) invokes the exact-bucket listener 5. -/
theorem c7_listenerCount_misses_symbol_exact :
    listenerCount S6 (.sym 0) = 0 ∧ (emitStep S6 (.sym 0)).1 = [5] := by
  decide

/-- CLAIM C8 (counterexample).  Registering the same callable 5 under an
exact key and then under a pattern key yields two registration records that
carry the same sequence number 1: wrapListener attaches the idx to the
function object in place and returns it unchanged when it is already
wrapped, so a re-registered callable reuses its original number. -/
theorem c8_same_callable_shares_sequence :
    recordSeqs (runPE run8).1 = [1, 1] ∧
    ¬ (recordSeqs (runPE run8).1).Nodup := by
  decide

/-- Lookup of the key just set. -/
theorem getv_jsSet_self {α β : Type} [DecidableEq α] (m : List (α × β)) (k : α) (v : β) :
    getv (jsSet m k v) k = some v := by
  induction m with
  | nil => simp [jsSet, getv]
  | cons p ps ih =>
    by_cases h : p.1 = k <;> simp [jsSet, getv, h, ih]

/-- Lookup of another key after a set. -/
theorem getv_jsSet_ne {α β : Type} [DecidableEq α] (m : List (α × β)) (k u : α) (v : β)
    (h : u ≠ k) : getv (jsSet m k v) u = getv m u := by
  have hku : ¬ k = u := fun hh => h hh.symm
  induction m with
  | nil => simp [jsSet, getv, hku]
  | cons p ps ih =>
    by_cases hp : p.1 = k
    · simp [jsSet, getv, hp, hku]
    · simp [jsSet, getv, hp, ih]

/-- Lookup of a deleted key. -/
theorem getv_jsDelete_self {α β : Type} [DecidableEq α] (m : List (α × β)) (k : α) :
    getv (jsDelete m k) k = none := by
  induction m with
  | nil => rfl
  | cons p ps ih =>
    unfold jsDelete at ih ⊢
    by_cases hp : p.1 = k
    · rw [List.filter_cons_of_neg (by simp [hp])]
      exact ih
    · rw [List.filter_cons_of_pos (by simp [hp])]
      simp [getv, hp, ih]

/-- Lookup of another key after a delete. -/
theorem getv_jsDelete_ne {α β : Type} [DecidableEq α] (m : List (α × β)) (k u : α)
    (h : u ≠ k) : getv (jsDelete m k) u = getv m u := by
  induction m with
  | nil => rfl
  | cons p ps ih =>
    unfold jsDelete at ih ⊢
    by_cases hp : p.1 = k
    · rw [List.filter_cons_of_neg (by simp [hp])]
      have hpu : ¬ p.1 = u := by
        rw [hp]
        exact fun hh => h hh.symm
      rw [ih]
      simp [getv, hpu]
    · rw [List.filter_cons_of_pos (by simp [hp])]
      by_cases hu : p.1 = u <;> simp [getv, hu, ih]

/-- Deleting right after setting the same key deletes the original entries. -/
theorem jsDelete_jsSet {α β : Type} [DecidableEq α] (m : List (α × β)) (k : α) (v : β) :
    jsDelete (jsSet m k v) k = jsDelete m k := by
  induction m with
  | nil => simp [jsSet, jsDelete]
  | cons p ps ih =>
    unfold jsDelete at ih ⊢
    by_cases hp : p.1 = k
    · rw [jsSet, if_pos hp]
      rw [List.filter_cons_of_neg (by simp), List.filter_cons_of_neg (by simp [hp])]
    · rw [jsSet, if_neg hp]
      rw [List.filter_cons_of_pos (by simp [hp]), List.filter_cons_of_pos (by simp [hp])]
      rw [ih]

/-- A successful lookup exhibits a member. -/
theorem getv_mem {α β : Type} [DecidableEq α] {m : List (α × β)} {k : α} {v : β}
    (h : getv m k = some v) : (k, v) ∈ m := by
  induction m with
  | nil => simp [getv] at h
  | cons p ps ih =>
    simp only [getv] at h
    by_cases hp : p.1 = k
    · rw [if_pos hp] at h
      have hv : p.2 = v := by injection h
      have hpkv : p = (k, v) := by
        cases p
        simp at hp hv
        rw [hp, hv]
      rw [← hpkv]
      exact List.mem_cons_self p ps
    · rw [if_neg hp] at h
      exact List.mem_cons_of_mem _ (ih h)

/-- Setting an absent key appends the entry. -/
theorem jsSet_of_absent {α β : Type} [DecidableEq α] (m : List (α × β)) (k : α) (v : β)
    (h : getv m k = none) : jsSet m k v = m ++ [(k, v)] := by
  induction m with
  | nil => simp [jsSet]
  | cons p ps ih =>
    by_cases hp : p.1 = k
    · simp [getv, hp] at h
    · simp [getv, hp] at h
      simp [jsSet, hp, ih h]

/-- Merging the empty list on the left returns the right list. -/
theorem merge_nil_left (S : PE) (l : List Nat) :
    mergeSortedListeners S [] l = l := by
  cases l <;> simp [mergeSortedListeners, mergeFuel]

/-- Merging the empty list on the right returns the left list. -/
theorem merge_nil_right (S : PE) (l : List Nat) :
    mergeSortedListeners S l [] = l := by
  cases l <;> simp [mergeSortedListeners, mergeFuel]

/-- wrapListener only touches the idx table and the global counter. -/
theorem wrapListener_cache (S : PE) (f : Nat) : (wrapListener S f).cache = S.cache := by
  unfold wrapListener
  cases getv S.idxOf f <;> rfl

theorem wrapListener_events (S : PE) (f : Nat) : (wrapListener S f).events = S.events := by
  unfold wrapListener
  cases getv S.idxOf f <;> rfl

theorem wrapListener_regexMap (S : PE) (f : Nat) :
    (wrapListener S f).regexMap = S.regexMap := by
  unfold wrapListener
  cases getv S.idxOf f <;> rfl

theorem wrapListener_patBuckets (S : PE) (f : Nat) :
    (wrapListener S f).patBuckets = S.patBuckets := by
  unfold wrapListener
  cases getv S.idxOf f <;> rfl

theorem wrapListener_actual (S : PE) (f : Nat) :
    (wrapListener S f).actualListeners = S.actualListeners := by
  unfold wrapListener
  cases getv S.idxOf f <;> rfl

theorem wrapListener_count (S : PE) (f : Nat) :
    (wrapListener S f).regexesCount = S.regexesCount := by
  unfold wrapListener
  cases getv S.idxOf f <;> rfl

/-- An already wrapped listener is left untouched. -/
theorem wrapListener_of_assigned (S : PE) (f : Nat) (h : (getv S.idxOf f).isSome = true) :
    wrapListener S f = S := by
  unfold wrapListener
  cases hg : getv S.idxOf f
  · rw [hg] at h
    simp at h
  · rfl

/-- The idx table only grows at an unassigned key. -/
theorem wrapListener_idxOf_preserved (S : PE) (f g : Nat)
    (h : (getv S.idxOf g).isSome = true) :
    getv (wrapListener S f).idxOf g = getv S.idxOf g := by
  unfold wrapListener
  cases hg : getv S.idxOf f
  · by_cases hfg : g = f
    · subst hfg
      rw [hg] at h
      simp at h
    · simp [getv_jsSet_ne _ _ _ _ hfg]
  · rfl

/-- A state whose cache is empty is trivially cache-valid. -/
theorem cacheValid_of_nil (S : PE) (h : S.cache = []) : cacheValid S := by
  intro kv hkv
  rw [h] at hkv
  exact absurd hkv (List.not_mem_nil kv)

/-- With a nonzero pattern counter and a valid cache, emit resolves exactly
the getMatchingListeners output and reports its non-emptiness. -/
theorem emit_general_resolves (S : PE) (t : EventEmitterType) (hc : cacheValid S)
    (h0 : ¬ S.regexesCount = 0) :
    (emitStep S t).1 = getMatchingListeners S t ∧
    (emitStep S t).2.1 = !(getMatchingListeners S t).isEmpty := by
  unfold emitStep
  rw [if_neg h0]
  unfold generalEmitPair
  cases hg : getv S.cache t with
  | none => simp
  | some l =>
    have hl := hc (t, l) (getv_mem hg)
    simp only at hl
    simp [hl]

/-- addListener leaves the cache empty (it clears it first and never
refills it). -/
theorem addListener_cache (S : PE) (k : EventPattern) (f : Nat) :
    (addListener S k f).cache = [] := by
  cases k with
  | ev t =>
    show (superAddListener (wrapListener (clearCache S) f) t _).cache = []
    show (wrapListener (clearCache S) f).cache = []
    rw [wrapListener_cache]
    rfl
  | re r =>
    simp only [addListener]
    split
    · show (wrapListener (clearCache S) f).cache = []
      rw [wrapListener_cache]
      rfl
    · show (wrapListener (clearCache S) f).cache = []
      rw [wrapListener_cache]
      rfl

/-- removeListener leaves the cache empty. -/
theorem removeListener_cache (S : PE) (k : EventPattern) (f : Nat) :
    (removeListener S k f).cache = [] := by
  cases k with
  | ev t => rfl
  | re r =>
    simp only [removeListener]
    split
    · split
      · rfl
      · rfl
    · rfl

/-- removeAllListeners leaves the cache empty. -/
theorem removeAllListeners_cache (S : PE) (k : Option EventPattern) :
    (removeAllListeners S k).cache = [] := by
  cases k with
  | none => rfl
  | some kk =>
    cases kk with
    | ev t => rfl
    | re r =>
      simp only [removeAllListeners]
      split
      · rfl
      · rfl

/-- once leaves the cache empty. -/
theorem once_cache (S : PE) (k : EventPattern) (f w : Nat) :
    (once S k f w).cache = [] := by
  cases k with
  | ev t =>
    show (wrapListener (clearCache (wrapListener S f)) w).cache = []
    rw [wrapListener_cache]
    rfl
  | re r => exact addListener_cache _ _ _

/-- CLAIM C10.  Whenever the pattern-registration counter is nonzero (so emit
takes the pattern-matching path) and the cache is valid, emitting any symbol
identifier invokes no listeners and returns false, even if listeners are
registered under that exact symbol key: getMatchingListeners resolves every
non-string identifier to the empty list. -/
theorem c10_emit_symbol_with_patterns_noop (S : PE) (n : Nat) (hc : cacheValid S)
    (h0 : ¬ S.regexesCount = 0) :
    (emitStep S (.sym n)).1 = [] ∧ (emitStep S (.sym n)).2.1 = false := by
  have h := emit_general_resolves S (.sym n) hc h0
  have hm : getMatchingListeners S (.sym n) = [] := rfl
  rw [hm] at h
  exact ⟨h.1, h.2⟩

/-- Witness for C10: the run2 state has an exact-symbol listener, a pattern
registration (counter 1) and an empty cache; emit of the symbol resolves
nothing and returns false. -/
theorem c10_emit_symbol_witness :
    (emitStep (runPE run2).1 (.sym 0)).1 = [] ∧
    (emitStep (runPE run2).1 (.sym 0)).2.1 = false :=
  c10_emit_symbol_with_patterns_noop (runPE run2).1 0
    (cacheValid_of_nil _ (by decide)) (by decide)

/-- The dispatch loop invokes the listeners before a throwing one and stops
there: the throw escapes. -/
theorem dispatchExc_prefix (throws : Nat → Bool) (pre : List Nat) (x : Nat)
    (suf : List Nat) (hpre : ∀ y ∈ pre, throws y = false) (hx : throws x = true) :
    dispatchExc throws (pre ++ x :: suf) = (pre, true) := by
  induction pre with
  | nil => simp [dispatchExc, hx]
  | cons a rest ih =>
    have ha : throws a = false := hpre a (List.mem_cons_self a rest)
    have ih2 := ih (fun y hy => hpre y (List.mem_cons_of_mem a hy))
    simp [dispatchExc, ha, ih2]

/-- CLAIM C9.  If a listener throws during emit, the exception propagates out
of emit (the dispatch loop does not catch), no listener positioned after the
failing one in the resolved order is invoked, and the listeners before it
have already run to completion. -/
theorem c9_throw_fail_fast (S : PE) (t : EventEmitterType) (throws : Nat → Bool)
    (pre : List Nat) (x : Nat) (suf : List Nat)
    (hres : (emitStep S t).1 = pre ++ x :: suf)
    (hpre : ∀ y ∈ pre, throws y = false) (hx : throws x = true) :
    emitExc S t throws = (pre, true) := by
  unfold emitExc
  rw [hres]
  exact dispatchExc_prefix throws pre x suf hpre hx

/-- Witness for C9: two pattern listeners resolve as [5, 6]; listener 6
throws; listener 5 ran, listener 6's throw escaped, nothing after it ran. -/
theorem c9_throw_witness :
    emitExc S9 (.str "a") (fun n => n == 6) = ([5], true) :=
  c9_throw_fail_fast S9 (.str "a") (fun n => n == 6) [5] 6 [] (by decide)
    (by decide) (by decide)

/-- CLAIM C8 (amended): the idx table only holds values below the global
counter and pairwise-distinct values. -/
abbrev IdxInv (S : PE) : Prop :=
  (∀ p ∈ S.idxOf, p.2 < S.globalIdx) ∧
    S.idxOf.Pairwise (fun p q => p.2 ≠ q.2)

/-- wrapListener preserves the idx invariant. -/
theorem wrapListener_IdxInv (S : PE) (f : Nat) (h : IdxInv S) :
    IdxInv (wrapListener S f) := by
  unfold wrapListener
  cases hg : getv S.idxOf f with
  | some v => exact h
  | none =>
    rw [jsSet_of_absent _ _ _ hg]
    constructor
    · intro p hp
      rcases List.mem_append.1 hp with hmem | hmem
      · exact Nat.lt_trans (h.1 p hmem) (Nat.lt_succ_self _)
      · simp at hmem
        rw [hmem]
        exact Nat.lt_succ_self _
    · rw [List.pairwise_append]
      refine ⟨h.2, List.pairwise_singleton _ _, ?_⟩
      intro p hp q hq
      simp at hq
      rw [hq]
      exact Nat.ne_of_lt (h.1 p hp)

/-- addListener preserves the idx invariant (it calls wrapListener once). -/
theorem addListener_IdxInv (S : PE) (k : EventPattern) (f : Nat) (h : IdxInv S) :
    IdxInv (addListener S k f) := by
  cases k with
  | ev t => exact wrapListener_IdxInv (clearCache S) f h
  | re r =>
    simp only [addListener]
    split
    · exact wrapListener_IdxInv (clearCache S) f h
    · exact wrapListener_IdxInv (clearCache S) f h

/-- removeListener never touches the idx table. -/
theorem removeListener_IdxInv (S : PE) (k : EventPattern) (f : Nat) (h : IdxInv S) :
    IdxInv (removeListener S k f) := by
  cases k with
  | ev t => exact h
  | re r =>
    simp only [removeListener]
    split
    · split
      · exact h
      · exact h
    · exact h

/-- removeAllListeners never touches the idx table. -/
theorem removeAllListeners_IdxInv (S : PE) (k : Option EventPattern) (h : IdxInv S) :
    IdxInv (removeAllListeners S k) := by
  cases k with
  | none => exact h
  | some kk =>
    cases kk with
    | ev t => exact h
    | re r =>
      simp only [removeAllListeners]
      split
      · exact h
      · exact h

/-- once preserves the idx invariant (it calls wrapListener twice). -/
theorem once_IdxInv (S : PE) (k : EventPattern) (f w : Nat) (h : IdxInv S) :
    IdxInv (once S k f w) := by
  cases k with
  | ev t => exact wrapListener_IdxInv _ w (wrapListener_IdxInv S f h)
  | re r => exact addListener_IdxInv S (.re r) w h

/-- The fast path's state effect does not touch the idx table. -/
theorem fastEmitState_idx (S : PE) (t : EventEmitterType) :
    (fastEmitState S t).idxOf = S.idxOf ∧
    (fastEmitState S t).globalIdx = S.globalIdx := by
  unfold fastEmitState
  generalize superListenersRaw S t = l
  induction l generalizing S with
  | nil => exact ⟨rfl, rfl⟩
  | cons e rest ih =>
    rw [List.foldl_cons]
    cases e with
    | plain f => exact ih S
    | onceW w f => exact ih (superRemoveListener (clearCache S) t w)

/-- Every operation preserves the idx invariant. -/
theorem applyOp_IdxInv (S : PE) (op : Op) (h : IdxInv S) :
    IdxInv (applyOp S op).1 := by
  cases op with
  | add k f => exact addListener_IdxInv S k f h
  | remove k f => exact removeListener_IdxInv S k f h
  | removeAll k => exact removeAllListeners_IdxInv S k h
  | onceOp k f w => exact once_IdxInv S k f w h
  | emit t =>
    show IdxInv (emitStep S t).2.2
    unfold emitStep
    split
    · have hx := fastEmitState_idx S t
      unfold IdxInv
      rw [hx.1, hx.2]
      exact h
    · unfold generalEmitState
      split
      · exact h
      · exact h

/-- Running any history preserves the idx invariant. -/
theorem foldl_run_IdxInv (ops : List Op) (S : PE) (log : List Nat) (h : IdxInv S) :
    IdxInv (ops.foldl
      (fun acc op => ((applyOp acc.1 op).1, acc.2 ++ (applyOp acc.1 op).2))
      (S, log)).1 := by
  induction ops generalizing S log with
  | nil => exact h
  | cons op rest ih =>
    rw [List.foldl_cons]
    exact ih _ _ (applyOp_IdxInv S op h)

/-- The final state of any history satisfies the idx invariant. -/
theorem runPE_IdxInv (ops : List Op) : IdxInv (runPE ops).1 :=
  foldl_run_IdxInv ops initPE [] ⟨fun p hp => absurd hp (List.not_mem_nil p),
    List.Pairwise.nil⟩

/-- CLAIM C8 (amended).  Over every registration history, the sequence number
is assigned per callable at its first wrap from the monotone global counter:
two distinct callables never carry the same index (registrations of the same
callable, however, share its index — see the counterexample). -/
theorem c8_distinct_callables_distinct_sequences (ops : List Op) (f g i j : Nat)
    (hfg : f ≠ g) (hf : getv (runPE ops).1.idxOf f = some i)
    (hg : getv (runPE ops).1.idxOf g = some j) : i ≠ j := by
  have hinv : IdxInv (runPE ops).1 := runPE_IdxInv ops
  have hmf := getv_mem hf
  have hmg := getv_mem hg
  have hsymm : Symmetric (fun p q : Nat × Nat => p.2 ≠ q.2) :=
    fun p q hpq => Ne.symm hpq
  have hne : (f, i) ≠ (g, j) := fun hh => hfg (congrArg Prod.fst hh)
  exact List.Pairwise.forall hsymm hinv.2 hmf hmg hne

/-- The two-distinct-callables history used by the C8 witness. -/
def run8w : List Op := [.add (.ev (.str "a")) 5, .add (.ev (.str "b")) 6]

/-- Witness for C8: callables 5 and 6 receive the distinct indices 1 and 2. -/
theorem c8_distinct_witness :
    getv (runPE run8w).1.idxOf 5 = some 1 ∧
    getv (runPE run8w).1.idxOf 6 = some 2 ∧ (1 : Nat) ≠ 2 :=
  ⟨by decide, by decide,
    c8_distinct_callables_distinct_sequences run8w 5 6 1 2 (by decide)
      (by decide) (by decide)⟩

/-- With no pattern buckets stored, the regex walk contributes nothing. -/
theorem regexMatchList_of_no_buckets (S : PE) (s : String) (hb : S.patBuckets = [])
    (m : List (String × Rgx)) : regexMatchList S s m = [] := by
  induction m with
  | nil => rfl
  | cons kv rest ih =>
    unfold regexMatchList
    rw [ih]
    cases htest : kv.2.test s
    · simp [htest]
    · simp [htest, patternListeners, hb, getv]

/-- Under the identity-table invariant, the unwrap map is the identity. -/
theorem getv_actual_id (S : PE) (ha : ActId S) (e : Nat) :
    (getv S.actualListeners e).getD e = e := by
  cases hg : getv S.actualListeners e with
  | none => rfl
  | some v =>
    have := ha (e, v) (getv_mem hg)
    simp only at this
    simp [← this]

/-- Mapping the unwrap function over any list is the identity under ActId. -/
theorem map_unwrap_id (S : PE) (ha : ActId S) (l : List Nat) :
    l.map (fun e => (getv S.actualListeners e).getD e) = l := by
  induction l with
  | nil => rfl
  | cons a rest ih => simp [getv_actual_id S ha, ih]

/-- Mapping preserves emptiness. -/
theorem isEmpty_map {α β : Type} (f : α → β) (l : List α) :
    (l.map f).isEmpty = l.isEmpty := by
  cases l <;> rfl

/-- With no pattern buckets, getMatchingListeners on a string is exactly the
exact-bucket listener list. -/
theorem matcher_of_no_buckets (S : PE) (s : String) (hc : ActId S)
    (hb : S.patBuckets = []) :
    getMatchingListeners S (.str s) = superListeners S (.str s) := by
  show (mergeSortedListeners S (regexMatchList S s S.regexMap)
      (superListeners S (.str s))).map
    (fun e => (getv S.actualListeners e).getD e) = superListeners S (.str s)
  rw [regexMatchList_of_no_buckets S s hb, merge_nil_left]
  exact map_unwrap_id S hc _

/-- CLAIM C6 (amended).  Whenever the registry holds zero pattern
registrations, the fast-path emit and the general Matcher/Cache path agree on
every string identifier on which the fast path returns at all: same invoked
listeners, same order, same boolean result.  The one string on which the fast
path does not return is the reserved identifier "error" with an empty error
bucket: there `super.emit` throws ERR_UNHANDLED_ERROR, while the general path
would resolve the empty list and return false.  (For symbol identifiers the
two paths disagree whenever the symbol has exact listeners — see the
counterexample.) -/
theorem c6_fast_general_equiv_strings (S : PE) (s : String) (hc : cacheValid S)
    (ha : ActId S) (hb : S.patBuckets = []) :
    (fastEmitThrows S (.str s) = false →
      fastEmitPair S (.str s) = generalEmitPair S (.str s)) ∧
    (fastEmitThrows S (.str s) = true →
      s = "error" ∧ superListenersRaw S (.str s) = [] ∧
        generalEmitPair S (.str s) = ([], false)) := by
  have hmatch := matcher_of_no_buckets S s ha hb
  constructor
  · intro _
    unfold generalEmitPair
    cases hg : getv S.cache (.str s) with
    | none =>
      simp only
      rw [hmatch]
      unfold fastEmitPair superListeners
      rw [isEmpty_map]
    | some l =>
      have hl := hc (.str s, l) (getv_mem hg)
      simp only at hl
      rw [hl, hmatch]
      unfold fastEmitPair superListeners
      simp [isEmpty_map]
  · intro hthrow
    have h2 : s = "error" ∧ superListenersRaw S (.str s) = [] := by
      have h3 := hthrow
      simp [fastEmitThrows, List.isEmpty_iff] at h3
      exact h3
    have hempty : superListeners S (.str s) = [] := by
      unfold superListeners
      rw [h2.2]
      rfl
    refine ⟨h2.1, h2.2, ?_⟩
    unfold generalEmitPair
    cases hg : getv S.cache (.str s) with
    | none =>
      simp only
      rw [hmatch, hempty]
      rfl
    | some l =>
      have hl := hc (.str s, l) (getv_mem hg)
      simp only at hl
      rw [hl, hmatch, hempty]
      rfl

/-- A state for the C6 witness: one exact string listener, no patterns. -/
def S6w : PE := (runPE [.add (.ev (.str "q")) 3]).1

/-- Witness for C6: on the string "q" the fast path does not throw and both
paths produce ([3], true); on the string "error", whose exact bucket is empty
in S6w, the fast path throws while the general path returns ([], false). -/
theorem c6_fast_general_witness :
    fastEmitThrows S6w (.str "q") = false ∧
    fastEmitPair S6w (.str "q") = generalEmitPair S6w (.str "q") ∧
    fastEmitThrows S6w (.str "error") = true ∧
    generalEmitPair S6w (.str "error") = ([], false) :=
  ⟨by decide,
   (c6_fast_general_equiv_strings S6w "q" (cacheValid_of_nil _ (by decide))
      (by decide) (by decide)).1 (by decide),
   by decide,
   ((c6_fast_general_equiv_strings S6w "error" (cacheValid_of_nil _ (by decide))
      (by decide) (by decide)).2 (by decide)).2.2⟩

/-- CLAIM C7 (amended).  The direct-bucket accessor never mixes cross-type
matches: for an exact key it reads only the exact bucket (changing the
pattern-side state does not affect it), and for a pattern key only that
pattern's bucket (changing the exact-side state does not affect it); whereas
listenerCount counts the merged getMatchingListeners set, which is exactly
what emit invokes on the pattern path for string identifiers.  (For symbol
identifiers listenerCount counts nothing even when emit's fast path invokes
exact listeners — see the counterexample.) -/
theorem c7_direct_bucket_vs_merged (S : PE)
    (B : List (String × List Nat)) (M : List (String × Rgx))
    (A : List (Nat × Nat)) (CC : List (EventEmitterType × List Nat))
    (E : List (EventEmitterType × List NodeEntry))
    (r : Rgx) (t : EventEmitterType) (s : String)
    (hc : cacheValid S) (h0 : ¬ S.regexesCount = 0) :
    listeners { S with patBuckets := B, regexMap := M, actualListeners := A,
                       cache := CC } (.ev t) = superListeners S t ∧
    listeners { S with events := E, cache := CC } (.re r) = patternListeners S r ∧
    listenerCount S (.str s) = ((emitStep S (.str s)).1).length := by
  refine ⟨rfl, rfl, ?_⟩
  rw [(emit_general_resolves S (.str s) hc h0).1]
  rfl

/-- A state for the C7 witness: one exact listener and one pattern listener. -/
def S7w : PE := (runPE [.add (.ev (.str "a")) 3, .add (.re alwaysR) 5]).1

/-- Witness for C7: the direct accessor sees only its own bucket even under
foreign pattern/exact state, and listenerCount equals the emitted length. -/
theorem c7_direct_bucket_witness :
    listeners { S7w with patBuckets := [("/z/", [7])], regexMap := [],
                         actualListeners := [], cache := [] }
        (.ev (.str "a")) = superListeners S7w (.str "a") ∧
    listeners { S7w with events := [(.str "a", [.plain 9])], cache := [] }
        (.re alwaysR) = patternListeners S7w alwaysR ∧
    listenerCount S7w (.str "a") = ((emitStep S7w (.str "a")).1).length :=
  c7_direct_bucket_vs_merged S7w [("/z/", [7])] [] [] []
    [(.str "a", [.plain 9])] alwaysR (.str "a") "a"
    (cacheValid_of_nil _ (by decide)) (by decide)

/-- CLAIM C5 (amended).  Every registration mutation (add, remove,
remove-all, once) leaves the whole listener cache empty, so the very next
emit for any identifier cannot use a stale cached list; and whenever the
pattern counter is nonzero that next emit resolves exactly the cold
getMatchingListeners computation on the mutated registry.  (When counter
drift lets the fast path fire despite live patterns, the next emit can
nevertheless miss pattern matches — see the counterexample.) -/
theorem c5_mutation_clears_cache_cold_recompute (S : PE) (m : Op) (s : String)
    (hm : m.isMutation = true) :
    ((applyOp S m).1).cache = [] ∧
    (¬ ((applyOp S m).1).regexesCount = 0 →
      (emitStep (applyOp S m).1 (.str s)).1 =
        getMatchingListeners (applyOp S m).1 (.str s)) := by
  have hcache : ((applyOp S m).1).cache = [] := by
    cases m with
    | add k f => exact addListener_cache S k f
    | remove k f => exact removeListener_cache S k f
    | removeAll k => exact removeAllListeners_cache S k
    | onceOp k f w => exact once_cache S k f w
    | emit t => simp [Op.isMutation] at hm
  refine ⟨hcache, fun h0 => ?_⟩
  exact (emit_general_resolves (applyOp S m).1 (.str s)
    (cacheValid_of_nil _ hcache) h0).1

/-- Witness for C5: after adding a pattern listener to a fresh emitter the
cache is empty and the next emit of "a" resolves the cold computation. -/
theorem c5_mutation_witness :
    ((applyOp initPE (.add (.re alwaysR) 5)).1).cache = [] ∧
    (emitStep (applyOp initPE (.add (.re alwaysR) 5)).1 (.str "a")).1 =
      getMatchingListeners (applyOp initPE (.add (.re alwaysR) 5)).1 (.str "a") :=
  ⟨(c5_mutation_clears_cache_cold_recompute initPE (.add (.re alwaysR) 5) "a"
      (by decide)).1,
    (c5_mutation_clears_cache_cold_recompute initPE (.add (.re alwaysR) 5) "a"
      (by decide)).2 (by decide)⟩

/-- A non-empty default lookup is a successful lookup. -/
theorem getv_of_getD_ne_nil {α β : Type} [DecidableEq α] (m : List (α × List β)) (k : α)
    (h : (getv m k).getD [] ≠ []) : getv m k = some ((getv m k).getD []) := by
  cases hg : getv m k with
  | none =>
    rw [hg] at h
    simp at h
  | some l => rfl

/-- Members of a pattern bucket are stored listeners. -/
theorem patternListeners_sub_stored (S : PE) (r : Rgx) (x : Nat)
    (h : x ∈ patternListeners S r) : x ∈ storedFuns S := by
  unfold patternListeners at h
  cases hg : getv S.patBuckets r.key with
  | none =>
    rw [hg] at h
    simp at h
  | some b =>
    rw [hg] at h
    simp only [Option.getD_some] at h
    unfold storedFuns
    refine List.mem_append.2 (Or.inr ?_)
    exact List.mem_flatMap.2 ⟨(r.key, b), getv_mem hg, h⟩

/-- Members of a Node bucket view are stored listeners. -/
theorem superListeners_sub_stored (S : PE) (t : EventEmitterType) (x : Nat)
    (h : x ∈ superListeners S t) : x ∈ storedFuns S := by
  unfold superListeners superListenersRaw at h
  cases hg : getv S.events t with
  | none =>
    rw [hg] at h
    simp at h
  | some b =>
    rw [hg] at h
    simp only [Option.getD_some] at h
    unfold storedFuns
    refine List.mem_append.2 (Or.inl ?_)
    exact List.mem_flatMap.2 ⟨(t, b), getv_mem hg, h⟩

/-- Members of the regex walk come from some pattern bucket. -/
theorem mem_regexMatchList (S : PE) (s : String) (m : List (String × Rgx)) (x : Nat)
    (h : x ∈ regexMatchList S s m) : ∃ kv ∈ m, x ∈ patternListeners S kv.2 := by
  induction m with
  | nil => simp [regexMatchList] at h
  | cons kv rest ih =>
    unfold regexMatchList at h
    rcases List.mem_append.1 h with hin | hin
    · cases htest : kv.2.test s
      · rw [htest] at hin
        simp at hin
      · rw [htest] at hin
        simp only [if_pos] at hin
        exact ⟨kv, List.mem_cons_self kv rest, by simpa using hin⟩
    · rcases ih hin with ⟨kv2, hkv2, hx⟩
      exact ⟨kv2, List.mem_cons_of_mem kv hkv2, hx⟩

/-- The merge loop only inspects the idx of its members: two states that
agree there merge identically. -/
theorem mergeFuel_congr (T S : PE) (n : Nat) (l1 l2 : List Nat)
    (h1 : ∀ x ∈ l1, idxVal T x = idxVal S x)
    (h2 : ∀ x ∈ l2, idxVal T x = idxVal S x) :
    mergeFuel T n l1 l2 = mergeFuel S n l1 l2 := by
  induction n generalizing l1 l2 with
  | zero => rfl
  | succ n ih =>
    cases l1 with
    | nil => rfl
    | cons a l1 =>
      cases l2 with
      | nil => rfl
      | cons b l2 =>
        unfold mergeFuel
        rw [h1 a (List.mem_cons_self a l1), h2 b (List.mem_cons_self b l2)]
        by_cases hle : idxVal S a ≤ idxVal S b
        · rw [if_pos hle, if_pos hle,
            ih l1 (b :: l2) (fun x hx => h1 x (List.mem_cons_of_mem a hx)) h2]
        · rw [if_neg hle, if_neg hle,
            ih (a :: l1) l2 h1 (fun x hx => h2 x (List.mem_cons_of_mem b hx))]

/-- Congruence for _mergeSortedListeners. -/
theorem mergeSorted_congr (T S : PE) (l1 l2 : List Nat)
    (h1 : ∀ x ∈ l1, idxVal T x = idxVal S x)
    (h2 : ∀ x ∈ l2, idxVal T x = idxVal S x) :
    mergeSortedListeners T l1 l2 = mergeSortedListeners S l1 l2 :=
  mergeFuel_congr T S _ l1 l2 h1 h2

/-- Congruence for the regex walk over a fixed regex list. -/
theorem regexMatchList_congr (T S : PE) (s : String) (m : List (String × Rgx))
    (h : ∀ kv ∈ m, patternListeners T kv.2 = patternListeners S kv.2) :
    regexMatchList T s m = regexMatchList S s m := by
  induction m with
  | nil => rfl
  | cons kv rest ih =>
    unfold regexMatchList
    rw [h kv (List.mem_cons_self kv rest),
      ih (fun kv2 hkv2 => h kv2 (List.mem_cons_of_mem kv hkv2))]

/-- Dropping regex-map entries whose pattern bucket is empty does not change
the regex walk. -/
theorem regexMatchList_jsDelete (T : PE) (s : String) (m : List (String × Rgx))
    (key : String)
    (h : ∀ kv ∈ m, kv.1 = key → patternListeners T kv.2 = []) :
    regexMatchList T s (jsDelete m key) = regexMatchList T s m := by
  induction m with
  | nil => rfl
  | cons kv rest ih =>
    unfold jsDelete at ih ⊢
    by_cases hp : kv.1 = key
    · rw [List.filter_cons_of_neg (by simp [hp])]
      rw [ih (fun kv2 hkv2 hk => h kv2 (List.mem_cons_of_mem kv hkv2) hk)]
      conv_rhs => rw [regexMatchList]
      rw [h kv (List.mem_cons_self kv rest) hp]
      cases htest : kv.2.test s <;> simp [htest]
    · rw [List.filter_cons_of_pos (by simp [hp])]
      conv_lhs => rw [regexMatchList]
      conv_rhs => rw [regexMatchList]
      rw [ih (fun kv2 hkv2 hk => h kv2 (List.mem_cons_of_mem kv hkv2) hk)]

/-- getMatchingListeners agrees on two states whose components agree. -/
theorem matcher_eq_of_parts (T S : PE)
    (hrm : ∀ s, regexMatchList T s T.regexMap = regexMatchList S s S.regexMap)
    (hev : ∀ u, (getv T.events u).getD [] = (getv S.events u).getD [])
    (hidx : ∀ x, x ∈ storedFuns S → idxVal T x = idxVal S x)
    (hwr : WrappedInv S)
    (hun : ∀ e, (getv T.actualListeners e).getD e = (getv S.actualListeners e).getD e)
    (u : EventEmitterType) :
    getMatchingListeners T u = getMatchingListeners S u := by
  cases u with
  | sym n => rfl
  | str s =>
    have hsl : superListeners T (.str s) = superListeners S (.str s) := by
      unfold superListeners superListenersRaw
      rw [hev (.str s)]
    show (mergeSortedListeners T (regexMatchList T s T.regexMap)
        (superListeners T (.str s))).map
      (fun e => (getv T.actualListeners e).getD e) =
      (mergeSortedListeners S (regexMatchList S s S.regexMap)
        (superListeners S (.str s))).map
      (fun e => (getv S.actualListeners e).getD e)
    rw [hrm s, hsl]
    rw [mergeSorted_congr T S _ _
      (fun x hx => by
        rcases mem_regexMatchList S s S.regexMap x hx with ⟨kv, _, hxp⟩
        exact hidx x (patternListeners_sub_stored S kv.2 x hxp))
      (fun x hx => hidx x (superListeners_sub_stored S (.str s) x hx))]
    rw [show (fun e => (getv T.actualListeners e).getD e) =
      (fun e => (getv S.actualListeners e).getD e) from funext hun]

/-- Two states with the same matcher output, Node buckets, counter, and an
empty/valid cache emit the same listeners and report the same count. -/
theorem observables_eq (T S : PE)
    (hmat : ∀ u, getMatchingListeners T u = getMatchingListeners S u)
    (hev : ∀ u, (getv T.events u).getD [] = (getv S.events u).getD [])
    (hcount : T.regexesCount = S.regexesCount)
    (hTc : T.cache = []) (hSc : cacheValid S) (t : EventEmitterType) :
    (emitStep T t).1 = (emitStep S t).1 ∧ listenerCount T t = listenerCount S t := by
  constructor
  · by_cases h0 : S.regexesCount = 0
    · unfold emitStep
      rw [hcount, if_pos h0, if_pos h0]
      show superListeners T t = superListeners S t
      unfold superListeners superListenersRaw
      rw [hev t]
    · have hT0 : ¬ T.regexesCount = 0 := by
        rw [hcount]
        exact h0
      rw [(emit_general_resolves T t (cacheValid_of_nil T hTc) hT0).1,
        (emit_general_resolves S t hSc h0).1]
      exact hmat t
  · unfold listenerCount
    rw [hmat t]

/-- Unfolding of the events field of Node's removeListener. -/
theorem superRemoveListener_events (S : PE) (t : EventEmitterType) (g : Nat) :
    (superRemoveListener S t g).events =
      if ((removeFirst (nodeMatches g) (superListenersRaw S t).reverse).reverse).isEmpty
      then jsDelete S.events t
      else jsSet S.events t
        ((removeFirst (nodeMatches g) (superListenersRaw S t).reverse).reverse) := rfl

/-- Removing a plain listener right after appending it restores every Node
bucket (the backward scan finds the appended copy first). -/
theorem super_remove_after_add (X : PE) (t0 : EventEmitterType) (f : Nat)
    (u : EventEmitterType) :
    (getv (superRemoveListener (clearCache (superAddListener X t0 (.plain f)))
        t0 f).events u).getD [] =
      (getv X.events u).getD [] := by
  have hraw : superListenersRaw (clearCache (superAddListener X t0 (.plain f))) t0 =
      superListenersRaw X t0 ++ [NodeEntry.plain f] := by
    show (getv (jsSet X.events t0 (superListenersRaw X t0 ++ [NodeEntry.plain f]))
      t0).getD [] = _
    rw [getv_jsSet_self]
    rfl
  have hl2 : (removeFirst (nodeMatches f)
      (superListenersRaw (clearCache (superAddListener X t0 (.plain f)))
        t0).reverse).reverse = superListenersRaw X t0 := by
    rw [hraw, List.reverse_append]
    show (removeFirst (nodeMatches f)
      (NodeEntry.plain f :: (superListenersRaw X t0).reverse)).reverse = _
    unfold removeFirst
    rw [if_pos (by simp [nodeMatches])]
    exact List.reverse_reverse _
  rw [superRemoveListener_events, hl2]
  have hccev : (clearCache (superAddListener X t0 (.plain f))).events =
      jsSet X.events t0 (superListenersRaw X t0 ++ [NodeEntry.plain f]) := rfl
  rw [hccev]
  by_cases hemp : (superListenersRaw X t0).isEmpty
  · rw [if_pos hemp]
    by_cases hu : u = t0
    · subst hu
      rw [getv_jsDelete_self]
      have hnil : superListenersRaw X u = [] := List.isEmpty_iff.1 hemp
      unfold superListenersRaw at hnil
      rw [hnil]
      rfl
    · rw [getv_jsDelete_ne _ _ _ hu, getv_jsSet_ne _ _ _ _ hu]
  · rw [if_neg hemp]
    by_cases hu : u = t0
    · subst hu
      rw [getv_jsSet_self]
      rfl
    · rw [getv_jsSet_ne _ _ _ _ hu, getv_jsSet_ne _ _ _ _ hu]

/-- The idx table after addListener is the idx table after the single
wrapListener call it performs. -/
theorem addListener_idxOf (S : PE) (k : EventPattern) (f : Nat) :
    (addListener S k f).idxOf = (wrapListener (clearCache S) f).idxOf := by
  cases k with
  | ev t => rfl
  | re r =>
    simp only [addListener]
    split
    · rfl
    · rfl

/-- removeListener never touches the idx table. -/
theorem removeListener_idxOf (S : PE) (k : EventPattern) (f : Nat) :
    (removeListener S k f).idxOf = S.idxOf := by
  cases k with
  | ev t => rfl
  | re r =>
    simp only [removeListener]
    split
    · split
      · rfl
      · rfl
    · rfl

/-- The idx table after a register/unregister round trip. -/
theorem roundtrip_idxOf (S : PE) (k : EventPattern) (f : Nat) :
    (removeListener (addListener S k f) k f).idxOf =
      (wrapListener (clearCache S) f).idxOf := by
  rw [removeListener_idxOf, addListener_idxOf]

/-- Stored listeners keep their idx across a round trip. -/
theorem roundtrip_idxVal (S : PE) (k : EventPattern) (f : Nat) (hw : WrappedInv S)
    (x : Nat) (hx : x ∈ storedFuns S) :
    idxVal (removeListener (addListener S k f) k f) x = idxVal S x := by
  unfold idxVal
  rw [roundtrip_idxOf S k f]
  rw [wrapListener_idxOf_preserved (clearCache S) f x (hw x hx)]
  rfl

/-- Fields untouched by the exact-key round trip. -/
theorem roundtrip_ev_fields (S : PE) (t0 : EventEmitterType) (f : Nat) :
    (removeListener (addListener S (.ev t0) f) (.ev t0) f).regexMap = S.regexMap ∧
    (removeListener (addListener S (.ev t0) f) (.ev t0) f).patBuckets = S.patBuckets ∧
    (removeListener (addListener S (.ev t0) f) (.ev t0) f).actualListeners =
      S.actualListeners ∧
    (removeListener (addListener S (.ev t0) f) (.ev t0) f).regexesCount =
      S.regexesCount :=
  ⟨wrapListener_regexMap (clearCache S) f, wrapListener_patBuckets (clearCache S) f,
    wrapListener_actual (clearCache S) f, wrapListener_count (clearCache S) f⟩

/-- Under the identity-pair invariant, looking the original listener up in the
table right after setting its identity pair finds exactly that pair. -/
theorem find_jsSet_id (m : List (Nat × Nat)) (f : Nat) (ha : ∀ p ∈ m, p.1 = p.2) :
    (jsSet m f f).find? (fun p => p.2 == f) = some (f, f) := by
  induction m with
  | nil =>
    show List.find? (fun p => p.2 == f) [(f, f)] = some (f, f)
    rw [List.find?_cons_of_pos _ (by simp)]
  | cons p ps ih =>
    simp only [jsSet]
    by_cases hp : p.1 = f
    · rw [if_pos hp, List.find?_cons_of_pos _ (by simp)]
    · have h2 : ¬ p.2 = f := by
        rw [← ha p (List.mem_cons_self p ps)]
        exact hp
      rw [if_neg hp, List.find?_cons_of_neg _ (by simp [h2])]
      exact ih (fun q hq => ha q (List.mem_cons_of_mem p hq))

/-- Filtering the inserted listener out of a bucket removes exactly the
copies of that listener. -/
theorem insertByIdx_filter (T : PE) (i f : Nat) (l : List Nat) :
    (insertByIdx T i f l).filter (fun x => x != f) = l.filter (fun x => x != f) := by
  induction l with
  | nil =>
    show List.filter (fun x => x != f) [f] = []
    simp
  | cons a rest ih =>
    simp only [insertByIdx]
    by_cases hlt : i < idxVal T a
    · rw [if_pos hlt]
      rw [List.filter_cons_of_neg (by simp)]
    · rw [if_neg hlt]
      by_cases haf : a = f
      · rw [List.filter_cons_of_neg (by simp [haf]),
          List.filter_cons_of_neg (by simp [haf])]
        exact ih
      · rw [List.filter_cons_of_pos (by simp [haf]),
          List.filter_cons_of_pos (by simp [haf])]
        rw [ih]

/-- A bucket not containing the listener is untouched by the filter. -/
theorem filter_ne_of_not_mem (f : Nat) (l : List Nat) (h : f ∉ l) :
    l.filter (fun x => x != f) = l :=
  List.filter_eq_self.2 (fun a hal => by
    simp only [bne_iff_ne, ne_eq]
    intro haf
    exact h (haf ▸ hal))

/-- addListener on a regex leaves the Node buckets untouched. -/
theorem addListener_re_events (S : PE) (r : Rgx) (f : Nat) :
    (addListener S (.re r) f).events = S.events := by
  simp only [addListener]
  split
  · exact wrapListener_events (clearCache S) f
  · exact wrapListener_events (clearCache S) f

/-- addListener on a regex records the identity pair of the listener. -/
theorem addListener_re_actual (S : PE) (r : Rgx) (f : Nat) :
    (addListener S (.re r) f).actualListeners = jsSet S.actualListeners f f := by
  simp only [addListener]
  split
  · show jsSet (wrapListener (clearCache S) f).actualListeners f f = _
    rw [wrapListener_actual]
    rfl
  · show jsSet (wrapListener (clearCache S) f).actualListeners f f = _
    rw [wrapListener_actual]
    rfl

/-- addListener on a regex bumps the counter by one. -/
theorem addListener_re_count (S : PE) (r : Rgx) (f : Nat) :
    (addListener S (.re r) f).regexesCount = S.regexesCount + 1 := by
  simp only [addListener]
  split
  · show (wrapListener (clearCache S) f).regexesCount + 1 = _
    rw [wrapListener_count]
    rfl
  · show (wrapListener (clearCache S) f).regexesCount + 1 = _
    rw [wrapListener_count]
    rfl

/-- addListener on an already-stored regex keeps the regex map. -/
theorem addListener_re_regexMap_present (S : PE) (r : Rgx) (f : Nat)
    (hreg : (getv S.regexMap r.key).isSome = true) :
    (addListener S (.re r) f).regexMap = S.regexMap := by
  simp only [addListener]
  split
  · exact wrapListener_regexMap (clearCache S) f
  · rename_i hcnd
    exfalso
    apply hcnd
    show (getv (wrapListener (clearCache S) f).regexMap r.key).isSome = true
    rw [wrapListener_regexMap]
    exact hreg

/-- addListener on a fresh regex appends it to the regex map. -/
theorem addListener_re_regexMap_absent (S : PE) (r : Rgx) (f : Nat)
    (hreg : getv S.regexMap r.key = none) :
    (addListener S (.re r) f).regexMap = jsSet S.regexMap r.key r := by
  simp only [addListener]
  split
  · rename_i hcnd
    exfalso
    have hcnd2 : (getv (wrapListener (clearCache S) f).regexMap r.key).isSome = true :=
      hcnd
    rw [wrapListener_regexMap] at hcnd2
    show False
    have : getv (clearCache S).regexMap r.key = none := hreg
    rw [this] at hcnd2
    simp at hcnd2
  · show jsSet (wrapListener (clearCache S) f).regexMap r.key r = _
    rw [wrapListener_regexMap]
    rfl

/-- Pattern buckets other than the regex's own are untouched by the add. -/
theorem addListener_re_patBuckets_ne (S : PE) (r : Rgx) (f : Nat) (u : String)
    (hu : u ≠ r.key) :
    getv (addListener S (.re r) f).patBuckets u = getv S.patBuckets u := by
  simp only [addListener]
  split
  · rw [getv_jsSet_ne _ _ _ _ hu]
    show getv (wrapListener (clearCache S) f).patBuckets u = _
    rw [wrapListener_patBuckets]
    rfl
  · rw [getv_jsSet_ne _ _ _ _ hu]
    show getv (wrapListener (clearCache S) f).patBuckets u = _
    rw [wrapListener_patBuckets]
    rfl

/-- The regex's own bucket after the add: some list whose f-free part is the
f-free part of the old bucket. -/
theorem addListener_re_patBuckets_self (S : PE) (r : Rgx) (f : Nat) :
    ∃ B, getv (addListener S (.re r) f).patBuckets r.key = some B ∧
      B.filter (fun x => x != f) =
        ((getv S.patBuckets r.key).getD []).filter (fun x => x != f) := by
  simp only [addListener]
  split
  · refine ⟨_, getv_jsSet_self _ _ _, ?_⟩
    rw [insertByIdx_filter]
    show (((getv (wrapListener (clearCache S) f).patBuckets r.key).getD []).filter
      (fun x => x != f)) = _
    rw [wrapListener_patBuckets]
    rfl
  · refine ⟨_, getv_jsSet_self _ _ _, ?_⟩
    rw [insertByIdx_filter]
    show (((getv (wrapListener (clearCache S) f).patBuckets r.key).getD []).filter
      (fun x => x != f)) = _
    rw [wrapListener_patBuckets]
    rfl

/-- The removal side of the pattern round trip finds the identity pair the add
just stored. -/
theorem remove_scrut2 (S : PE) (r : Rgx) (f : Nat) (ha : ActId S) :
    (((clearCache (addListener S (.re r) f)).actualListeners.find?
      (fun p => p.2 == f)).map (fun p => p.1)) = some f := by
  show (((addListener S (.re r) f).actualListeners.find?
    (fun p => p.2 == f)).map (fun p => p.1)) = some f
  rw [addListener_re_actual, find_jsSet_id S.actualListeners f ha]
  rfl

/-- The pattern round trip leaves the Node buckets untouched. -/
theorem roundtrip_re_events (S : PE) (r : Rgx) (f : Nat) :
    (removeListener (addListener S (.re r) f) (.re r) f).events = S.events := by
  simp only [removeListener]
  split
  · split
    · exact addListener_re_events S r f
    · exact addListener_re_events S r f
  · exact addListener_re_events S r f

/-- The pattern round trip deletes exactly the callable's table entry. -/
theorem roundtrip_re_actual (S : PE) (r : Rgx) (f : Nat) (ha : ActId S) :
    (removeListener (addListener S (.re r) f) (.re r) f).actualListeners =
      jsDelete S.actualListeners f := by
  obtain ⟨B, hB, hBf⟩ := addListener_re_patBuckets_self S r f
  have hS1 : getv (clearCache (addListener S (.re r) f)).patBuckets r.key =
      some B := hB
  have hS2 := remove_scrut2 S r f ha
  simp only [removeListener]
  split
  · rename_i bucket w heq1 heq2
    have hwf : w = f := by
      rw [hS2] at heq2
      injection heq2 with h
      exact h.symm
    rw [hwf]
    split
    · show jsDelete (addListener S (.re r) f).actualListeners f = _
      rw [addListener_re_actual, jsDelete_jsSet]
    · show jsDelete (addListener S (.re r) f).actualListeners f = _
      rw [addListener_re_actual, jsDelete_jsSet]
  · rename_i hno
    exact (hno B f hS1 hS2).elim

/-- The pattern round trip restores the counter. -/
theorem roundtrip_re_count (S : PE) (r : Rgx) (f : Nat) (ha : ActId S) :
    (removeListener (addListener S (.re r) f) (.re r) f).regexesCount =
      S.regexesCount := by
  obtain ⟨B, hB, hBf⟩ := addListener_re_patBuckets_self S r f
  have hS1 : getv (clearCache (addListener S (.re r) f)).patBuckets r.key =
      some B := hB
  have hS2 := remove_scrut2 S r f ha
  simp only [removeListener]
  split
  · split
    · show (addListener S (.re r) f).regexesCount - 1 = S.regexesCount
      rw [addListener_re_count]
      omega
    · show (addListener S (.re r) f).regexesCount - 1 = S.regexesCount
      rw [addListener_re_count]
      omega
  · rename_i hno
    exact (hno B f hS1 hS2).elim

/-- The pattern round trip restores every pattern bucket (as observed through
lookups), provided the callable was not already in the bucket. -/
theorem roundtrip_re_patBuckets (S : PE) (r : Rgx) (f : Nat) (ha : ActId S)
    (hfr : f ∉ (getv S.patBuckets r.key).getD []) (u : String) :
    (getv (removeListener (addListener S (.re r) f) (.re r) f).patBuckets
      u).getD [] = (getv S.patBuckets u).getD [] := by
  obtain ⟨B, hB, hBf⟩ := addListener_re_patBuckets_self S r f
  have hBfree : B.filter (fun x => x != f) = (getv S.patBuckets r.key).getD [] := by
    rw [hBf]
    exact filter_ne_of_not_mem f _ hfr
  have hS1 : getv (clearCache (addListener S (.re r) f)).patBuckets r.key =
      some B := hB
  have hS2 := remove_scrut2 S r f ha
  simp only [removeListener]
  split
  · rename_i bucket w heq1 heq2
    have hwf : w = f := by
      rw [hS2] at heq2
      injection heq2 with h
      exact h.symm
    have hbB : bucket = B := by
      rw [hS1] at heq1
      injection heq1 with h
      exact h.symm
    rw [hwf, hbB]
    split
    · rename_i hbe
      by_cases hu : u = r.key
      · subst hu
        show (getv (jsDelete (clearCache (addListener S (.re r) f)).patBuckets
          r.key) r.key).getD [] = _
        rw [getv_jsDelete_self]
        have hb0 : (getv S.patBuckets r.key).getD [] = [] := by
          rw [← hBfree]
          exact List.isEmpty_iff.1 hbe
        rw [hb0]
        rfl
      · show (getv (jsDelete (clearCache (addListener S (.re r) f)).patBuckets
          r.key) u).getD [] = _
        rw [getv_jsDelete_ne _ _ _ hu]
        show (getv (addListener S (.re r) f).patBuckets u).getD [] = _
        rw [addListener_re_patBuckets_ne S r f u hu]
    · by_cases hu : u = r.key
      · subst hu
        show (getv (jsSet (clearCache (addListener S (.re r) f)).patBuckets r.key
          (B.filter (fun x => x != f))) r.key).getD [] = _
        rw [getv_jsSet_self]
        exact hBfree
      · show (getv (jsSet (clearCache (addListener S (.re r) f)).patBuckets r.key
          (B.filter (fun x => x != f))) u).getD [] = _
        rw [getv_jsSet_ne _ _ _ _ hu]
        show (getv (addListener S (.re r) f).patBuckets u).getD [] = _
        rw [addListener_re_patBuckets_ne S r f u hu]
  · rename_i hno
    exact (hno B f hS1 hS2).elim

/-- The pattern round trip restores the regex map, or (when the bucket was
previously empty) deletes exactly the round-tripped key. -/
theorem roundtrip_re_regexMap (S : PE) (r : Rgx) (f : Nat) (ha : ActId S)
    (hp : PairedInv S) (hfr : f ∉ (getv S.patBuckets r.key).getD []) :
    (removeListener (addListener S (.re r) f) (.re r) f).regexMap = S.regexMap ∨
      ((removeListener (addListener S (.re r) f) (.re r) f).regexMap =
          jsDelete S.regexMap r.key ∧ (getv S.patBuckets r.key).getD [] = []) := by
  obtain ⟨B, hB, hBf⟩ := addListener_re_patBuckets_self S r f
  have hBfree : B.filter (fun x => x != f) = (getv S.patBuckets r.key).getD [] := by
    rw [hBf]
    exact filter_ne_of_not_mem f _ hfr
  have hS1 : getv (clearCache (addListener S (.re r) f)).patBuckets r.key =
      some B := hB
  have hS2 := remove_scrut2 S r f ha
  simp only [removeListener]
  split
  · rename_i bucket w heq1 heq2
    have hwf : w = f := by
      rw [hS2] at heq2
      injection heq2 with h
      exact h.symm
    have hbB : bucket = B := by
      rw [hS1] at heq1
      injection heq1 with h
      exact h.symm
    rw [hwf, hbB]
    split
    · rename_i hbe
      refine Or.inr ⟨?_, ?_⟩
      · show jsDelete (clearCache (addListener S (.re r) f)).regexMap r.key =
          jsDelete S.regexMap r.key
        show jsDelete (addListener S (.re r) f).regexMap r.key =
          jsDelete S.regexMap r.key
        cases hreg : getv S.regexMap r.key with
        | none => rw [addListener_re_regexMap_absent S r f hreg, jsDelete_jsSet]
        | some rr =>
          rw [addListener_re_regexMap_present S r f (by rw [hreg]; rfl)]
      · rw [← hBfree]
        exact List.isEmpty_iff.1 hbe
    · rename_i hbe
      refine Or.inl ?_
      have hb0 : (getv S.patBuckets r.key).getD [] ≠ [] := by
        rw [← hBfree]
        intro hnil
        apply hbe
        rw [hnil]
        rfl
      have hmem : (r.key, (getv S.patBuckets r.key).getD []) ∈ S.patBuckets :=
        getv_mem (getv_of_getD_ne_nil S.patBuckets r.key hb0)
      have hreg : (getv S.regexMap r.key).isSome = true := hp _ hmem hb0
      show (addListener S (.re r) f).regexMap = S.regexMap
      exact addListener_re_regexMap_present S r f hreg
  · rename_i hno
    exact (hno B f hS1 hS2).elim

/-- CLAIM C4 (amended).  For every state satisfying the registry invariants,
registering a listener and immediately unregistering the same (key, listener)
pair leaves the observable match set — the listener list emit resolves and
listenerCount — identical to its value before, for every identifier: for
exact keys unconditionally, and for pattern keys provided the callable was
not already present in that pattern's bucket (see the counterexample for the
duplicate case, where every occurrence is removed). -/
theorem c4_register_unregister_roundtrip (S : PE) (k : EventPattern) (f : Nat)
    (hc : cacheValid S) (ha : ActId S) (hw : WrappedInv S) (hk : KeyedInv S)
    (hp : PairedInv S)
    (hfresh : ∀ r, k = EventPattern.re r → f ∉ (getv S.patBuckets r.key).getD [])
    (t : EventEmitterType) :
    (emitStep (removeListener (addListener S k f) k f) t).1 = (emitStep S t).1 ∧
    listenerCount (removeListener (addListener S k f) k f) t = listenerCount S t := by
  cases k with
  | ev t0 =>
    obtain ⟨hrm0, hpb0, hac0, hct0⟩ := roundtrip_ev_fields S t0 f
    have hev : ∀ u,
        (getv (removeListener (addListener S (.ev t0) f) (.ev t0) f).events
          u).getD [] = (getv S.events u).getD [] := by
      intro u
      have h1 := super_remove_after_add (wrapListener (clearCache S) f) t0 f u
      rw [wrapListener_events] at h1
      exact h1
    have hpl : ∀ r', patternListeners
        (removeListener (addListener S (.ev t0) f) (.ev t0) f) r' =
        patternListeners S r' := by
      intro r'
      unfold patternListeners
      rw [hpb0]
    have hrm : ∀ s, regexMatchList
        (removeListener (addListener S (.ev t0) f) (.ev t0) f) s
        (removeListener (addListener S (.ev t0) f) (.ev t0) f).regexMap =
        regexMatchList S s S.regexMap := by
      intro s
      rw [hrm0]
      exact regexMatchList_congr _ S s S.regexMap (fun kv _ => hpl kv.2)
    have hun : ∀ e,
        (getv (removeListener (addListener S (.ev t0) f) (.ev t0)
          f).actualListeners e).getD e = (getv S.actualListeners e).getD e := by
      intro e
      rw [hac0]
    have hmat := matcher_eq_of_parts _ S hrm hev
      (roundtrip_idxVal S (.ev t0) f hw) hw hun
    exact observables_eq _ S hmat hev hct0
      (removeListener_cache _ (.ev t0) f) hc t
  | re r =>
    have hfr : f ∉ (getv S.patBuckets r.key).getD [] := hfresh r rfl
    have hevq : (removeListener (addListener S (.re r) f) (.re r) f).events =
        S.events := roundtrip_re_events S r f
    have hev : ∀ u,
        (getv (removeListener (addListener S (.re r) f) (.re r) f).events
          u).getD [] = (getv S.events u).getD [] := by
      intro u
      rw [hevq]
    have hpb := roundtrip_re_patBuckets S r f ha hfr
    have hpl : ∀ r', patternListeners
        (removeListener (addListener S (.re r) f) (.re r) f) r' =
        patternListeners S r' := by
      intro r'
      unfold patternListeners
      exact hpb r'.key
    have hrm : ∀ s, regexMatchList
        (removeListener (addListener S (.re r) f) (.re r) f) s
        (removeListener (addListener S (.re r) f) (.re r) f).regexMap =
        regexMatchList S s S.regexMap := by
      intro s
      rcases roundtrip_re_regexMap S r f ha hp hfr with hrm1 | ⟨hrm2, hb0⟩
      · rw [hrm1]
        exact regexMatchList_congr _ S s S.regexMap (fun kv _ => hpl kv.2)
      · rw [hrm2]
        rw [regexMatchList_jsDelete _ s S.regexMap r.key
          (fun kv hkv hk1 => by
            rw [hpl kv.2]
            unfold patternListeners
            rw [hk kv hkv] at hk1
            rw [hk1]
            exact hb0)]
        exact regexMatchList_congr _ S s S.regexMap (fun kv _ => hpl kv.2)
    have hun : ∀ e,
        (getv (removeListener (addListener S (.re r) f) (.re r)
          f).actualListeners e).getD e = (getv S.actualListeners e).getD e := by
      intro e
      rw [roundtrip_re_actual S r f ha]
      by_cases hef : e = f
      · subst hef
        rw [getv_jsDelete_self, getv_actual_id S ha e]
        rfl
      · rw [getv_jsDelete_ne _ _ _ hef]
    have hmat := matcher_eq_of_parts _ S hrm hev
      (roundtrip_idxVal S (.re r) f hw) hw hun
    exact observables_eq _ S hmat hev (roundtrip_re_count S r f ha)
      (removeListener_cache _ (.re r) f) hc t

/-- Witness for C4: round-tripping pattern listener 8 on a state that already
holds a different pattern listener leaves the resolved emit list and count
for "a" (and the fresh pattern's own would-be matches) unchanged. -/
theorem c4_roundtrip_witness :
    (emitStep (removeListener (addListener S9 (.re bAlwaysR) 8) (.re bAlwaysR) 8)
      (.str "a")).1 = (emitStep S9 (.str "a")).1 ∧
    listenerCount (removeListener (addListener S9 (.re bAlwaysR) 8)
      (.re bAlwaysR) 8) (.str "a") = listenerCount S9 (.str "a") :=
  c4_register_unregister_roundtrip S9 (.re bAlwaysR) 8
    (cacheValid_of_nil _ (by decide)) (by decide) (by decide) (by decide)
    (by decide)
    (fun r hr => by
      injection hr with h
      subst h
      decide) (.str "a")

/-- Members of a map after a set come from the new entry or the old map. -/
theorem mem_jsSet {α β : Type} [DecidableEq α] (m : List (α × β)) (k : α) (v : β)
    (p : α × β) (h : p ∈ jsSet m k v) : p = (k, v) ∨ p ∈ m := by
  induction m with
  | nil =>
    simp [jsSet] at h
    exact Or.inl h
  | cons q qs ih =>
    simp only [jsSet] at h
    by_cases hq : q.1 = k
    · rw [if_pos hq] at h
      rcases List.mem_cons.1 h with h1 | h1
      · exact Or.inl h1
      · exact Or.inr (List.mem_cons_of_mem q h1)
    · rw [if_neg hq] at h
      rcases List.mem_cons.1 h with h1 | h1
      · exact Or.inr (h1 ▸ List.mem_cons_self q qs)
      · rcases ih h1 with h2 | h2
        · exact Or.inl h2
        · exact Or.inr (List.mem_cons_of_mem q h2)

/-- Members of a map after a delete were members before. -/
theorem mem_jsDelete {α β : Type} [DecidableEq α] (m : List (α × β)) (k : α)
    (p : α × β) (h : p ∈ jsDelete m k) : p ∈ m :=
  List.mem_of_mem_filter h

/-- removeFirst only drops elements. -/
theorem mem_removeFirst {α : Type} (p : α → Bool) (l : List α) (x : α)
    (h : x ∈ removeFirst p l) : x ∈ l := by
  induction l with
  | nil => simp [removeFirst] at h
  | cons a rest ih =>
    simp only [removeFirst] at h
    by_cases hp : p a
    · rw [if_pos hp] at h
      exact List.mem_cons_of_mem a h
    · rw [if_neg hp] at h
      rcases List.mem_cons.1 h with h1 | h1
      · exact h1 ▸ List.mem_cons_self a rest
      · exact List.mem_cons_of_mem a (ih h1)

/-- insertByIdx only adds the inserted listener. -/
theorem mem_insertByIdx (T : PE) (i f : Nat) (l : List Nat) (x : Nat)
    (h : x ∈ insertByIdx T i f l) : x = f ∨ x ∈ l := by
  induction l with
  | nil =>
    simp [insertByIdx] at h
    exact Or.inl h
  | cons a rest ih =>
    simp only [insertByIdx] at h
    by_cases hlt : i < idxVal T a
    · rw [if_pos hlt] at h
      rcases List.mem_cons.1 h with h1 | h1
      · exact Or.inl h1
      · exact Or.inr h1
    · rw [if_neg hlt] at h
      rcases List.mem_cons.1 h with h1 | h1
      · exact Or.inr (h1 ▸ List.mem_cons_self a rest)
      · rcases ih h1 with h2 | h2
        · exact Or.inl h2
        · exact Or.inr (List.mem_cons_of_mem a h2)

/-- wrapListener leaves the listener assigned. -/
theorem wrapListener_self_assigned (S : PE) (f : Nat) :
    (getv (wrapListener S f).idxOf f).isSome = true := by
  unfold wrapListener
  cases hg : getv S.idxOf f with
  | some v =>
    rw [hg]
    rfl
  | none =>
    show (getv (jsSet S.idxOf f S.globalIdx) f).isSome = true
    rw [getv_jsSet_self]
    rfl

/-- wrapListener never unassigns a listener. -/
theorem wrapListener_mono (S : PE) (f g : Nat)
    (h : (getv S.idxOf g).isSome = true) :
    (getv (wrapListener S f).idxOf g).isSome = true := by
  rw [wrapListener_idxOf_preserved S f g h]
  exact h

/-- The fast path's state effect only touches the Node buckets and cache. -/
theorem fastEmitState_fields (S : PE) (t : EventEmitterType) :
    (fastEmitState S t).regexMap = S.regexMap ∧
    (fastEmitState S t).patBuckets = S.patBuckets ∧
    (fastEmitState S t).actualListeners = S.actualListeners ∧
    (fastEmitState S t).regexesCount = S.regexesCount := by
  unfold fastEmitState
  generalize superListenersRaw S t = l
  induction l generalizing S with
  | nil => exact ⟨rfl, rfl, rfl, rfl⟩
  | cons e rest ih =>
    rw [List.foldl_cons]
    cases e with
    | plain f => exact ih S
    | onceW w f => exact ih (superRemoveListener (clearCache S) t w)

/-- After the fast path the state is unchanged or the cache is empty. -/
theorem fastEmitState_cache (S : PE) (t : EventEmitterType) :
    fastEmitState S t = S ∨ (fastEmitState S t).cache = [] := by
  unfold fastEmitState
  generalize superListenersRaw S t = l
  induction l generalizing S with
  | nil => exact Or.inl rfl
  | cons e rest ih =>
    rw [List.foldl_cons]
    cases e with
    | plain f => exact ih S
    | onceW w f =>
      rcases ih (superRemoveListener (clearCache S) t w) with h | h
      · refine Or.inr ?_
        rw [h]
        rfl
      · exact Or.inr h

/-- Every Node bucket after the fast path is a subset of some old bucket's
entries (only once wrappers are removed). -/
theorem fastEmitState_events_sub (S : PE) (t : EventEmitterType)
    (e : NodeEntry) (u : EventEmitterType)
    (h : e ∈ (getv (fastEmitState S t).events u).getD []) :
    e ∈ (getv S.events u).getD [] := by
  unfold fastEmitState at h
  revert h
  generalize superListenersRaw S t = l
  induction l generalizing S with
  | nil => exact id
  | cons a rest ih =>
    rw [List.foldl_cons]
    cases a with
    | plain f => exact ih S
    | onceW w f =>
      intro h
      have h1 := ih (superRemoveListener (clearCache S) t w) h
      revert h1
      rw [superRemoveListener_events]
      by_cases hemp : ((removeFirst (nodeMatches w)
          (superListenersRaw (clearCache S) t).reverse).reverse).isEmpty
      · rw [if_pos hemp]
        intro h1
        by_cases hu : u = t
        · subst hu
          rw [getv_jsDelete_self] at h1
          simp at h1
        · rw [getv_jsDelete_ne _ _ _ hu] at h1
          exact h1
      · rw [if_neg hemp]
        intro h1
        by_cases hu : u = t
        · subst hu
          rw [getv_jsSet_self] at h1
          simp only [Option.getD_some] at h1
          have h2 := List.mem_reverse.1 h1
          have h3 := mem_removeFirst _ _ _ h2
          have h4 := List.mem_reverse.1 h3
          exact h4
        · rw [getv_jsSet_ne _ _ _ _ hu] at h1
          exact h1

/-- getMatchingListeners only reads the five registry fields. -/
theorem matcher_state_congr (T S : PE) (hrm : T.regexMap = S.regexMap)
    (hpb : T.patBuckets = S.patBuckets) (hev : T.events = S.events)
    (hidx : T.idxOf = S.idxOf) (hac : T.actualListeners = S.actualListeners)
    (u : EventEmitterType) :
    getMatchingListeners T u = getMatchingListeners S u := by
  cases u with
  | sym n => rfl
  | str s =>
    show (mergeSortedListeners T (regexMatchList T s T.regexMap)
        (superListeners T (.str s))).map
      (fun e => (getv T.actualListeners e).getD e) =
      (mergeSortedListeners S (regexMatchList S s S.regexMap)
        (superListeners S (.str s))).map
      (fun e => (getv S.actualListeners e).getD e)
    rw [hrm, hac]
    rw [regexMatchList_congr T S s S.regexMap (fun kv _ => by
      unfold patternListeners
      rw [hpb])]
    rw [show superListeners T (.str s) = superListeners S (.str s) from by
      unfold superListeners superListenersRaw
      rw [hev]]
    rw [mergeSorted_congr T S _ _
      (fun x _ => by
        unfold idxVal
        rw [hidx])
      (fun x _ => by
        unfold idxVal
        rw [hidx])]

/-- Caching a fresh result does not change the matcher. -/
theorem matcher_cache_irrel (S : PE) (c : List (EventEmitterType × List Nat))
    (u : EventEmitterType) :
    getMatchingListeners { S with cache := c } u = getMatchingListeners S u :=
  matcher_state_congr { S with cache := c } S rfl rfl rfl rfl rfl u

/-- Introduction for stored listeners coming from a Node bucket. -/
theorem stored_events_intro (S : PE) (kv : EventEmitterType × List NodeEntry)
    (hkv : kv ∈ S.events) (g : Nat) (hg : g ∈ kv.2.map NodeEntry.target) :
    g ∈ storedFuns S :=
  List.mem_append.2 (Or.inl (List.mem_flatMap.2 ⟨kv, hkv, hg⟩))

/-- Introduction for stored listeners coming from a pattern bucket. -/
theorem stored_buckets_intro (S : PE) (kv : String × List Nat)
    (hkv : kv ∈ S.patBuckets) (g : Nat) (hg : g ∈ kv.2) :
    g ∈ storedFuns S :=
  List.mem_append.2 (Or.inr (List.mem_flatMap.2 ⟨kv, hkv, hg⟩))

/-- Elimination for stored listeners. -/
theorem stored_elim (S : PE) (g : Nat) (hg : g ∈ storedFuns S) :
    (∃ kv ∈ S.events, g ∈ kv.2.map NodeEntry.target) ∨
      ∃ kv ∈ S.patBuckets, g ∈ kv.2 := by
  rcases List.mem_append.1 hg with h | h
  · exact Or.inl (List.mem_flatMap.1 h)
  · exact Or.inr (List.mem_flatMap.1 h)

/-- A transfer principle for the wrapped invariant: new stored listeners must
be assigned, old ones keep their assignment. -/
theorem WrappedInv_of_sub (T S : PE)
    (hsub : ∀ g, g ∈ storedFuns T →
      g ∈ storedFuns S ∨ (getv T.idxOf g).isSome = true)
    (hmono : ∀ g, (getv S.idxOf g).isSome = true →
      (getv T.idxOf g).isSome = true)
    (hw : WrappedInv S) : WrappedInv T :=
  fun g hg => (hsub g hg).elim (fun h => hmono g (hw g h)) id

/-- A default-lookup member exhibits a stored entry. -/
theorem getv_getD_mem {α β : Type} [DecidableEq α] (m : List (α × List β)) (k : α)
    (x : β) (h : x ∈ (getv m k).getD []) : ∃ l, getv m k = some l ∧ x ∈ l := by
  cases hg : getv m k with
  | none =>
    rw [hg] at h
    simp at h
  | some l =>
    rw [hg] at h
    exact ⟨l, rfl, h⟩

/-- Folding deletes over a map only shrinks it. -/
theorem foldl_jsDelete_sub {α β : Type} [DecidableEq α] (l : List α)
    (m : List (α × β)) (p : α × β)
    (h : p ∈ l.foldl (fun acc x => jsDelete acc x) m) : p ∈ m := by
  induction l generalizing m with
  | nil => exact h
  | cons a rest ih =>
    rw [List.foldl_cons] at h
    exact mem_jsDelete _ _ _ (ih (jsDelete m a) h)

/-- The identity-table invariant survives every operation. -/
theorem applyOp_ActId (S : PE) (op : Op) (ha : ActId S) :
    ActId (applyOp S op).1 := by
  cases op with
  | add k f =>
    cases k with
    | ev t =>
      intro p hp
      have hp2 : p ∈ (wrapListener (clearCache S) f).actualListeners := hp
      rw [wrapListener_actual] at hp2
      exact ha p hp2
    | re r =>
      intro p hp
      have hp2 : p ∈ jsSet S.actualListeners f f := by
        rw [← addListener_re_actual S r f]
        exact hp
      rcases mem_jsSet _ _ _ p hp2 with h | h
      · rw [h]
      · exact ha p h
  | remove k f =>
    show ActId (removeListener S k f)
    cases k with
    | ev t => exact ha
    | re r =>
      simp only [removeListener]
      split
      · split
        · intro p hp
          exact ha p (mem_jsDelete _ _ p hp)
        · intro p hp
          exact ha p (mem_jsDelete _ _ p hp)
      · exact ha
  | removeAll k =>
    show ActId (removeAllListeners S k)
    cases k with
    | none =>
      intro p hp
      exact absurd hp (List.not_mem_nil p)
    | some kk =>
      cases kk with
      | ev t => exact ha
      | re r =>
        simp only [removeAllListeners]
        split
        · intro p hp
          exact ha p (foldl_jsDelete_sub _ _ p hp)
        · exact ha
  | onceOp k f w =>
    show ActId (once S k f w)
    cases k with
    | ev t =>
      intro p hp
      have hp2 : p ∈ (wrapListener (clearCache (wrapListener S f)) w).actualListeners :=
        hp
      rw [wrapListener_actual] at hp2
      have hp3 : p ∈ (wrapListener S f).actualListeners := hp2
      rw [wrapListener_actual] at hp3
      exact ha p hp3
    | re r =>
      intro p hp
      have hp2 : p ∈ jsSet S.actualListeners w w := by
        rw [← addListener_re_actual S r w]
        exact hp
      rcases mem_jsSet _ _ _ p hp2 with h | h
      · rw [h]
      · exact ha p h
  | emit t =>
    show ActId (emitStep S t).2.2
    unfold emitStep
    split
    · have hf := (fastEmitState_fields S t).2.2.1
      intro p hp
      rw [hf] at hp
      exact ha p hp
    · unfold generalEmitState
      split
      · exact ha
      · exact ha

/-- Cache validity survives every operation: mutations clear the cache and
emit only stores fresh matcher results. -/
theorem applyOp_cacheValid (S : PE) (op : Op) (hc : cacheValid S) :
    cacheValid (applyOp S op).1 := by
  cases op with
  | add k f => exact cacheValid_of_nil _ (addListener_cache S k f)
  | remove k f => exact cacheValid_of_nil _ (removeListener_cache S k f)
  | removeAll k => exact cacheValid_of_nil _ (removeAllListeners_cache S k)
  | onceOp k f w => exact cacheValid_of_nil _ (once_cache S k f w)
  | emit t =>
    show cacheValid (emitStep S t).2.2
    unfold emitStep
    split
    · rcases fastEmitState_cache S t with h | h
      · rw [h]
        exact hc
      · exact cacheValid_of_nil _ h
    · unfold generalEmitState
      split
      · exact hc
      · intro kv hkv
        have hkv2 : kv ∈ jsSet S.cache t (getMatchingListeners S t) := hkv
        rw [show getMatchingListeners
            { S with cache := jsSet S.cache t (getMatchingListeners S t) } kv.1 =
            getMatchingListeners S kv.1 from matcher_cache_irrel S _ kv.1]
        rcases mem_jsSet _ _ _ kv hkv2 with h | h
        · rw [h]
        · exact hc kv h

/-- A member of a map after a delete has a different key. -/
theorem mem_jsDelete_key_ne {α β : Type} [DecidableEq α] (m : List (α × β)) (k : α)
    (p : α × β) (h : p ∈ jsDelete m k) : p.1 ≠ k := by
  have h2 := (List.mem_filter.1 h).2
  simpa using h2

/-- Members of the pattern-bucket map after a regex add. -/
theorem addListener_re_patBuckets_mem (S : PE) (r : Rgx) (f : Nat)
    (kv : String × List Nat) (h : kv ∈ (addListener S (.re r) f).patBuckets) :
    kv.1 = r.key ∨ kv ∈ S.patBuckets := by
  simp only [addListener] at h
  split at h
  · rcases mem_jsSet _ _ _ kv h with h1 | h1
    · refine Or.inl ?_
      rw [h1]
    · have h2 : kv ∈ (wrapListener (clearCache S) f).patBuckets := h1
      rw [wrapListener_patBuckets] at h2
      exact Or.inr h2
  · rcases mem_jsSet _ _ _ kv h with h1 | h1
    · refine Or.inl ?_
      rw [h1]
    · have h2 : kv ∈ (wrapListener (clearCache S) f).patBuckets := h1
      rw [wrapListener_patBuckets] at h2
      exact Or.inr h2

/-- The structural-keying invariant survives every operation. -/
theorem applyOp_KeyedInv (S : PE) (op : Op) (hk : KeyedInv S) :
    KeyedInv (applyOp S op).1 := by
  cases op with
  | add k f =>
    cases k with
    | ev t =>
      intro kv hkv
      have hkv2 : kv ∈ (wrapListener (clearCache S) f).regexMap := hkv
      rw [wrapListener_regexMap] at hkv2
      exact hk kv hkv2
    | re r =>
      intro kv hkv
      have hkv2 : kv ∈ (addListener S (.re r) f).regexMap := hkv
      cases hreg : getv S.regexMap r.key with
      | none =>
        rw [addListener_re_regexMap_absent S r f hreg] at hkv2
        rcases mem_jsSet _ _ _ kv hkv2 with h | h
        · rw [h]
        · exact hk kv h
      | some rr =>
        rw [addListener_re_regexMap_present S r f (by rw [hreg]; rfl)] at hkv2
        exact hk kv hkv2
  | remove k f =>
    show KeyedInv (removeListener S k f)
    cases k with
    | ev t => exact hk
    | re r =>
      simp only [removeListener]
      split
      · split
        · intro kv hkv
          exact hk kv (mem_jsDelete _ _ kv hkv)
        · exact hk
      · exact hk
  | removeAll k =>
    show KeyedInv (removeAllListeners S k)
    cases k with
    | none =>
      intro kv hkv
      exact absurd hkv (List.not_mem_nil kv)
    | some kk =>
      cases kk with
      | ev t => exact hk
      | re r =>
        simp only [removeAllListeners]
        split
        · intro kv hkv
          exact hk kv (mem_jsDelete _ _ kv hkv)
        · exact hk
  | onceOp k f w =>
    show KeyedInv (once S k f w)
    cases k with
    | ev t =>
      intro kv hkv
      have hkv2 : kv ∈ (wrapListener (clearCache (wrapListener S f)) w).regexMap :=
        hkv
      rw [wrapListener_regexMap] at hkv2
      have hkv3 : kv ∈ (wrapListener S f).regexMap := hkv2
      rw [wrapListener_regexMap] at hkv3
      exact hk kv hkv3
    | re r =>
      intro kv hkv
      have hkv2 : kv ∈ (addListener S (.re r) w).regexMap := hkv
      cases hreg : getv S.regexMap r.key with
      | none =>
        rw [addListener_re_regexMap_absent S r w hreg] at hkv2
        rcases mem_jsSet _ _ _ kv hkv2 with h | h
        · rw [h]
        · exact hk kv h
      | some rr =>
        rw [addListener_re_regexMap_present S r w (by rw [hreg]; rfl)] at hkv2
        exact hk kv hkv2
  | emit t =>
    show KeyedInv (emitStep S t).2.2
    unfold emitStep
    split
    · intro kv hkv
      rw [(fastEmitState_fields S t).1] at hkv
      exact hk kv hkv
    · unfold generalEmitState
      split
      · exact hk
      · exact hk

/-- The bucket/regex pairing invariant survives every operation. -/
theorem applyOp_PairedInv (S : PE) (op : Op) (hp : PairedInv S) :
    PairedInv (applyOp S op).1 := by
  cases op with
  | add k f =>
    cases k with
    | ev t =>
      intro kv hkv h2
      have hkv2 : kv ∈ (wrapListener (clearCache S) f).patBuckets := hkv
      rw [wrapListener_patBuckets] at hkv2
      show (getv (wrapListener (clearCache S) f).regexMap kv.1).isSome = true
      rw [wrapListener_regexMap]
      exact hp kv hkv2 h2
    | re r =>
      intro kv hkv h2
      show (getv (addListener S (.re r) f).regexMap kv.1).isSome = true
      rcases addListener_re_patBuckets_mem S r f kv hkv with hkey | hmem
      · rw [hkey]
        cases hreg : getv S.regexMap r.key with
        | none =>
          rw [addListener_re_regexMap_absent S r f hreg, getv_jsSet_self]
          rfl
        | some rr =>
          rw [addListener_re_regexMap_present S r f (by rw [hreg]; rfl), hreg]
          rfl
      · have h3 := hp kv hmem h2
        cases hreg : getv S.regexMap r.key with
        | none =>
          rw [addListener_re_regexMap_absent S r f hreg]
          by_cases hkk : kv.1 = r.key
          · rw [hkk, getv_jsSet_self]; rfl
          · rw [getv_jsSet_ne _ _ _ _ hkk]; exact h3
        | some rr =>
          rw [addListener_re_regexMap_present S r f (by rw [hreg]; rfl)]
          exact h3
  | remove k f =>
    show PairedInv (removeListener S k f)
    cases k with
    | ev t => exact hp
    | re r =>
      simp only [removeListener]
      split
      · rename_i bucket w heq1 heq2
        split
        · intro kv hkv h2
          have hne : kv.1 ≠ r.key :=
            mem_jsDelete_key_ne (clearCache S).patBuckets r.key kv hkv
          have hkv2 : kv ∈ S.patBuckets :=
            mem_jsDelete (clearCache S).patBuckets r.key kv hkv
          have h3 := hp kv hkv2 h2
          show (getv (jsDelete (clearCache S).regexMap r.key) kv.1).isSome = true
          rw [getv_jsDelete_ne _ _ _ hne]
          exact h3
        · rename_i hbe
          intro kv hkv h2
          rcases mem_jsSet _ _ _ kv hkv with h1 | h1
          · have hbne : bucket ≠ [] := by
              intro hb
              apply hbe
              rw [hb]
              rfl
            have hmemb : (r.key, bucket) ∈ S.patBuckets := getv_mem heq1
            have h3 := hp (r.key, bucket) hmemb hbne
            rw [h1]
            exact h3
          · exact hp kv h1 h2
      · exact hp
  | removeAll k =>
    show PairedInv (removeAllListeners S k)
    cases k with
    | none =>
      intro kv hkv
      exact absurd hkv (List.not_mem_nil kv)
    | some kk =>
      cases kk with
      | ev t => exact hp
      | re r =>
        simp only [removeAllListeners]
        split
        · intro kv hkv h2
          have hne : kv.1 ≠ r.key :=
            mem_jsDelete_key_ne (clearCache S).patBuckets r.key kv hkv
          have hkv2 : kv ∈ S.patBuckets :=
            mem_jsDelete (clearCache S).patBuckets r.key kv hkv
          have h3 := hp kv hkv2 h2
          show (getv (jsDelete (clearCache S).regexMap r.key) kv.1).isSome = true
          rw [getv_jsDelete_ne _ _ _ hne]
          exact h3
        · exact hp
  | onceOp k f w =>
    show PairedInv (once S k f w)
    cases k with
    | ev t =>
      intro kv hkv h2
      have hkv2 : kv ∈ (wrapListener (clearCache (wrapListener S f)) w).patBuckets :=
        hkv
      rw [wrapListener_patBuckets] at hkv2
      have hkv3 : kv ∈ (wrapListener S f).patBuckets := hkv2
      rw [wrapListener_patBuckets] at hkv3
      show (getv (wrapListener (clearCache (wrapListener S f)) w).regexMap kv.1).isSome
        = true
      rw [wrapListener_regexMap]
      show (getv (wrapListener S f).regexMap kv.1).isSome = true
      rw [wrapListener_regexMap]
      exact hp kv hkv3 h2
    | re r =>
      intro kv hkv h2
      show (getv (addListener S (.re r) w).regexMap kv.1).isSome = true
      rcases addListener_re_patBuckets_mem S r w kv hkv with hkey | hmem
      · rw [hkey]
        cases hreg : getv S.regexMap r.key with
        | none =>
          rw [addListener_re_regexMap_absent S r w hreg, getv_jsSet_self]
          rfl
        | some rr =>
          rw [addListener_re_regexMap_present S r w (by rw [hreg]; rfl), hreg]
          rfl
      · have h3 := hp kv hmem h2
        cases hreg : getv S.regexMap r.key with
        | none =>
          rw [addListener_re_regexMap_absent S r w hreg]
          by_cases hkk : kv.1 = r.key
          · rw [hkk, getv_jsSet_self]; rfl
          · rw [getv_jsSet_ne _ _ _ _ hkk]; exact h3
        | some rr =>
          rw [addListener_re_regexMap_present S r w (by rw [hreg]; rfl)]
          exact h3
  | emit t =>
    show PairedInv (emitStep S t).2.2
    unfold emitStep
    split
    · intro kv hkv h2
      rw [(fastEmitState_fields S t).2.1] at hkv
      show (getv (fastEmitState S t).regexMap kv.1).isSome = true
      rw [(fastEmitState_fields S t).1]
      exact hp kv hkv h2
    · unfold generalEmitState
      split
      · exact hp
      · exact hp

/-- Node removeListener only drops stored listeners, it never adds one. -/
theorem superRemove_stored_sub (X : PE) (t : EventEmitterType) (u g : Nat)
    (hg : g ∈ storedFuns (superRemoveListener X t u)) : g ∈ storedFuns X := by
  rcases stored_elim _ g hg with ⟨kv, hkv, hgt⟩ | ⟨kv, hkv, hgt⟩
  · rw [superRemoveListener_events] at hkv
    by_cases hemp :
        ((removeFirst (nodeMatches u) (superListenersRaw X t).reverse).reverse).isEmpty
        = true
    · rw [if_pos hemp] at hkv
      exact stored_events_intro X kv (mem_jsDelete X.events t kv hkv) g hgt
    · rw [if_neg hemp] at hkv
      rcases mem_jsSet _ _ _ kv hkv with h1 | h1
      · have hgt2 : g ∈
            ((removeFirst (nodeMatches u) (superListenersRaw X t).reverse).reverse).map
              NodeEntry.target := by
          rw [h1] at hgt
          exact hgt
        rcases List.mem_map.1 hgt2 with ⟨e, he, hte⟩
        have he3 : e ∈ superListenersRaw X t :=
          List.mem_reverse.1 (mem_removeFirst _ _ e (List.mem_reverse.1 he))
        rcases getv_getD_mem X.events t e he3 with ⟨l, hl, hel⟩
        exact stored_events_intro X (t, l) (getv_mem hl) g
          (List.mem_map.2 ⟨e, hel, hte⟩)
      · exact stored_events_intro X kv h1 g hgt
  · exact stored_buckets_intro X kv hkv g hgt

/-- The once-wrapper self-removals of the fast path only drop stored
listeners. -/
theorem fastEmit_stored_sub (S : PE) (t : EventEmitterType) (g : Nat)
    (hg : g ∈ storedFuns (fastEmitState S t)) : g ∈ storedFuns S := by
  revert hg
  unfold fastEmitState
  generalize superListenersRaw S t = l
  induction l generalizing S with
  | nil => exact fun h => h
  | cons e rest ih =>
    rw [List.foldl_cons]
    cases e with
    | plain f => exact ih S
    | onceW w f =>
      intro hg
      exact superRemove_stored_sub (clearCache S) t w g
        (ih (superRemoveListener (clearCache S) t w) hg)

/-- removeAllListeners never touches the idx table. -/
theorem removeAllListeners_idxOf (S : PE) (k : Option EventPattern) :
    (removeAllListeners S k).idxOf = S.idxOf := by
  cases k with
  | none => rfl
  | some kk =>
    cases kk with
    | ev t => rfl
    | re r =>
      simp only [removeAllListeners]
      split <;> rfl

/-- Pattern-bucket entries after a regex add: the new listener or an old
stored one. -/
theorem addListener_re_patBuckets_entries (S : PE) (r : Rgx) (f : Nat)
    (kv : String × List Nat) (hkv : kv ∈ (addListener S (.re r) f).patBuckets)
    (g : Nat) (hg : g ∈ kv.2) : g = f ∨ g ∈ storedFuns S := by
  simp only [addListener] at hkv
  split at hkv
  · rcases mem_jsSet _ _ _ kv hkv with h1 | h1
    · rw [h1] at hg
      rcases mem_insertByIdx _ _ _ _ _ hg with h2 | h2
      · exact Or.inl h2
      · have h3 : g ∈ (getv (wrapListener (clearCache S) f).patBuckets r.key).getD []
            := h2
        rw [wrapListener_patBuckets] at h3
        rcases getv_getD_mem _ _ _ h3 with ⟨l, hl, hgl⟩
        exact Or.inr (stored_buckets_intro S (r.key, l) (getv_mem hl) g hgl)
    · have h2 : kv ∈ (wrapListener (clearCache S) f).patBuckets := h1
      rw [wrapListener_patBuckets] at h2
      exact Or.inr (stored_buckets_intro S kv h2 g hg)
  · rcases mem_jsSet _ _ _ kv hkv with h1 | h1
    · rw [h1] at hg
      rcases mem_insertByIdx _ _ _ _ _ hg with h2 | h2
      · exact Or.inl h2
      · have h3 : g ∈ (getv (wrapListener (clearCache S) f).patBuckets r.key).getD []
            := h2
        rw [wrapListener_patBuckets] at h3
        rcases getv_getD_mem _ _ _ h3 with ⟨l, hl, hgl⟩
        exact Or.inr (stored_buckets_intro S (r.key, l) (getv_mem hl) g hgl)
    · have h2 : kv ∈ (wrapListener (clearCache S) f).patBuckets := h1
      rw [wrapListener_patBuckets] at h2
      exact Or.inr (stored_buckets_intro S kv h2 g hg)

/-- removeListener on a pattern key only drops stored listeners. -/
theorem removeListener_re_stored_sub (S : PE) (r : Rgx) (f g : Nat)
    (hg : g ∈ storedFuns (removeListener S (.re r) f)) : g ∈ storedFuns S := by
  revert hg
  simp only [removeListener]
  split
  · rename_i bucket w heq1 heq2
    split
    · intro hg
      rcases stored_elim _ g hg with ⟨kv, hkv, hgt⟩ | ⟨kv, hkv, hgt⟩
      · exact stored_events_intro S kv hkv g hgt
      · have hkv2 : kv ∈ S.patBuckets :=
          mem_jsDelete (clearCache S).patBuckets r.key kv hkv
        exact stored_buckets_intro S kv hkv2 g hgt
    · intro hg
      rcases stored_elim _ g hg with ⟨kv, hkv, hgt⟩ | ⟨kv, hkv, hgt⟩
      · exact stored_events_intro S kv hkv g hgt
      · rcases mem_jsSet _ _ _ kv hkv with h1 | h1
        · have hgt2 : g ∈ bucket.filter (fun x => x != w) := by
            rw [h1] at hgt
            exact hgt
          exact stored_buckets_intro S (r.key, bucket) (getv_mem heq1) g
            (List.mem_of_mem_filter hgt2)
        · exact stored_buckets_intro S kv h1 g hgt
  · intro hg
    exact hg

/-- The wrapped-listener invariant (every stored listener has an idx) survives
every operation. -/
theorem applyOp_WrappedInv (S : PE) (op : Op) (hw : WrappedInv S) :
    WrappedInv (applyOp S op).1 := by
  cases op with
  | add k f =>
    cases k with
    | ev t =>
      refine WrappedInv_of_sub _ S ?_ ?_ hw
      · intro g hg
        rcases stored_elim _ g hg with ⟨kv, hkv, hgt⟩ | ⟨kv, hkv, hgt⟩
        · rcases mem_jsSet _ _ _ kv hkv with h1 | h1
          · have hgt2 : g ∈
                (superListenersRaw (wrapListener (clearCache S) f) t
                  ++ [NodeEntry.plain f]).map NodeEntry.target := by
              rw [h1] at hgt
              exact hgt
            rw [List.map_append] at hgt2
            rcases List.mem_append.1 hgt2 with h2 | h2
            · rcases List.mem_map.1 h2 with ⟨e, he, hte⟩
              have he2 : e ∈ (getv (wrapListener (clearCache S) f).events t).getD []
                  := he
              rw [wrapListener_events] at he2
              rcases getv_getD_mem S.events t e he2 with ⟨l, hl, hel⟩
              exact Or.inl (stored_events_intro S (t, l) (getv_mem hl) g
                (List.mem_map.2 ⟨e, hel, hte⟩))
            · have hgf : g = f := by simpa [NodeEntry.target] using h2
              refine Or.inr ?_
              rw [hgf]
              show (getv (wrapListener (clearCache S) f).idxOf f).isSome = true
              exact wrapListener_self_assigned (clearCache S) f
          · have h2 : kv ∈ (wrapListener (clearCache S) f).events := h1
            rw [wrapListener_events] at h2
            exact Or.inl (stored_events_intro S kv h2 g hgt)
        · have h2 : kv ∈ (wrapListener (clearCache S) f).patBuckets := hkv
          rw [wrapListener_patBuckets] at h2
          exact Or.inl (stored_buckets_intro S kv h2 g hgt)
      · intro g hgs
        show (getv (wrapListener (clearCache S) f).idxOf g).isSome = true
        exact wrapListener_mono (clearCache S) f g hgs
    | re r =>
      refine WrappedInv_of_sub _ S ?_ ?_ hw
      · intro g hg
        rcases stored_elim _ g hg with ⟨kv, hkv, hgt⟩ | ⟨kv, hkv, hgt⟩
        · have hkv2 : kv ∈ (addListener S (.re r) f).events := hkv
          rw [addListener_re_events] at hkv2
          exact Or.inl (stored_events_intro S kv hkv2 g hgt)
        · rcases addListener_re_patBuckets_entries S r f kv hkv g hgt with h1 | h1
          · refine Or.inr ?_
            rw [h1]
            show (getv (addListener S (.re r) f).idxOf f).isSome = true
            rw [addListener_idxOf]
            exact wrapListener_self_assigned (clearCache S) f
          · exact Or.inl h1
      · intro g hgs
        show (getv (addListener S (.re r) f).idxOf g).isSome = true
        rw [addListener_idxOf]
        exact wrapListener_mono (clearCache S) f g hgs
  | remove k f =>
    cases k with
    | ev t =>
      refine WrappedInv_of_sub _ S ?_ ?_ hw
      · intro g hg
        exact Or.inl (superRemove_stored_sub (clearCache S) t f g hg)
      · intro g hgs
        show (getv (removeListener S (.ev t) f).idxOf g).isSome = true
        rw [removeListener_idxOf]
        exact hgs
    | re r =>
      refine WrappedInv_of_sub _ S ?_ ?_ hw
      · intro g hg
        exact Or.inl (removeListener_re_stored_sub S r f g hg)
      · intro g hgs
        show (getv (removeListener S (.re r) f).idxOf g).isSome = true
        rw [removeListener_idxOf]
        exact hgs
  | removeAll k =>
    cases k with
    | none =>
      refine WrappedInv_of_sub _ S ?_ ?_ hw
      · intro g hg
        rcases stored_elim _ g hg with ⟨kv, hkv, hgt⟩ | ⟨kv, hkv, hgt⟩
        · exact absurd hkv (List.not_mem_nil kv)
        · exact absurd hkv (List.not_mem_nil kv)
      · intro g hgs
        show (getv (removeAllListeners S none).idxOf g).isSome = true
        rw [removeAllListeners_idxOf]
        exact hgs
    | some kk =>
      cases kk with
      | ev t =>
        refine WrappedInv_of_sub _ S ?_ ?_ hw
        · intro g hg
          rcases stored_elim _ g hg with ⟨kv, hkv, hgt⟩ | ⟨kv, hkv, hgt⟩
          · exact Or.inl (stored_events_intro S kv
              (mem_jsDelete S.events t kv hkv) g hgt)
          · exact Or.inl (stored_buckets_intro S kv hkv g hgt)
        · intro g hgs
          exact hgs
      | re r =>
        refine WrappedInv_of_sub _ S ?_ ?_ hw
        · intro g hg
          revert hg
          show g ∈ storedFuns (removeAllListeners S (some (.re r))) → _
          simp only [removeAllListeners]
          split
          · intro hg
            rcases stored_elim _ g hg with ⟨kv, hkv, hgt⟩ | ⟨kv, hkv, hgt⟩
            · exact Or.inl (stored_events_intro S kv hkv g hgt)
            · exact Or.inl (stored_buckets_intro S kv
                (mem_jsDelete (clearCache S).patBuckets r.key kv hkv) g hgt)
          · intro hg
            exact Or.inl hg
        · intro g hgs
          show (getv (removeAllListeners S (some (.re r))).idxOf g).isSome = true
          rw [removeAllListeners_idxOf]
          exact hgs
  | onceOp k f w =>
    cases k with
    | ev t =>
      refine WrappedInv_of_sub _ S ?_ ?_ hw
      · intro g hg
        rcases stored_elim _ g hg with ⟨kv, hkv, hgt⟩ | ⟨kv, hkv, hgt⟩
        · rcases mem_jsSet _ _ _ kv hkv with h1 | h1
          · have hgt2 : g ∈
                (superListenersRaw (wrapListener (clearCache (wrapListener S f)) w) t
                  ++ [NodeEntry.onceW w f]).map NodeEntry.target := by
              rw [h1] at hgt
              exact hgt
            rw [List.map_append] at hgt2
            rcases List.mem_append.1 hgt2 with h2 | h2
            · rcases List.mem_map.1 h2 with ⟨e, he, hte⟩
              have he2 : e ∈
                  (getv (wrapListener (clearCache (wrapListener S f)) w).events t).getD []
                  := he
              rw [wrapListener_events] at he2
              have he3 : e ∈ (getv (wrapListener S f).events t).getD [] := he2
              rw [wrapListener_events] at he3
              rcases getv_getD_mem S.events t e he3 with ⟨l, hl, hel⟩
              exact Or.inl (stored_events_intro S (t, l) (getv_mem hl) g
                (List.mem_map.2 ⟨e, hel, hte⟩))
            · have hgf : g = f := by simpa [NodeEntry.target] using h2
              refine Or.inr ?_
              rw [hgf]
              show (getv (wrapListener (clearCache (wrapListener S f)) w).idxOf f).isSome
                = true
              exact wrapListener_mono (clearCache (wrapListener S f)) w f
                (wrapListener_self_assigned S f)
          · have h2 : kv ∈ (wrapListener (clearCache (wrapListener S f)) w).events
                := h1
            rw [wrapListener_events] at h2
            have h3 : kv ∈ (wrapListener S f).events := h2
            rw [wrapListener_events] at h3
            exact Or.inl (stored_events_intro S kv h3 g hgt)
        · have h2 : kv ∈ (wrapListener (clearCache (wrapListener S f)) w).patBuckets
              := hkv
          rw [wrapListener_patBuckets] at h2
          have h3 : kv ∈ (wrapListener S f).patBuckets := h2
          rw [wrapListener_patBuckets] at h3
          exact Or.inl (stored_buckets_intro S kv h3 g hgt)
      · intro g hgs
        show (getv (wrapListener (clearCache (wrapListener S f)) w).idxOf g).isSome
          = true
        exact wrapListener_mono _ w g (wrapListener_mono S f g hgs)
    | re r =>
      refine WrappedInv_of_sub _ S ?_ ?_ hw
      · intro g hg
        have hg2 : g ∈ storedFuns (addListener S (.re r) w) := hg
        rcases stored_elim _ g hg2 with ⟨kv, hkv, hgt⟩ | ⟨kv, hkv, hgt⟩
        · rw [addListener_re_events] at hkv
          exact Or.inl (stored_events_intro S kv hkv g hgt)
        · rcases addListener_re_patBuckets_entries S r w kv hkv g hgt with h1 | h1
          · refine Or.inr ?_
            rw [h1]
            show (getv (addListener S (.re r) w).idxOf w).isSome = true
            rw [addListener_idxOf]
            exact wrapListener_self_assigned (clearCache S) w
          · exact Or.inl h1
      · intro g hgs
        show (getv (addListener S (.re r) w).idxOf g).isSome = true
        rw [addListener_idxOf]
        exact wrapListener_mono (clearCache S) w g hgs
  | emit t =>
    refine WrappedInv_of_sub _ S ?_ ?_ hw
    · intro g hg
      revert hg
      show g ∈ storedFuns (emitStep S t).2.2 → _
      unfold emitStep
      split
      · intro hg
        exact Or.inl (fastEmit_stored_sub S t g hg)
      · unfold generalEmitState
        split
        · intro hg
          exact Or.inl hg
        · intro hg
          exact Or.inl hg
    · intro g hgs
      show (getv (emitStep S t).2.2.idxOf g).isSome = true
      unfold emitStep
      split
      · show (getv (fastEmitState S t).idxOf g).isSome = true
        rw [(fastEmitState_idx S t).1]
        exact hgs
      · unfold generalEmitState
        split
        · exact hgs
        · exact hgs

/-- The full registry invariant: cache validity, identity wrapped-to-original
pairs, wrapped/idx coverage of every stored listener, canonical regex-map
keying, bucket/regex pairing, and idx uniqueness/boundedness. -/
abbrev RegInv (S : PE) : Prop :=
  cacheValid S ∧ ActId S ∧ WrappedInv S ∧ KeyedInv S ∧ PairedInv S ∧ IdxInv S

/-- The full registry invariant survives every operation. -/
theorem applyOp_RegInv (S : PE) (op : Op) (h : RegInv S) :
    RegInv (applyOp S op).1 :=
  ⟨applyOp_cacheValid S op h.1, applyOp_ActId S op h.2.1,
    applyOp_WrappedInv S op h.2.2.1, applyOp_KeyedInv S op h.2.2.2.1,
    applyOp_PairedInv S op h.2.2.2.2.1, applyOp_IdxInv S op h.2.2.2.2.2⟩

/-- The fold of any operation list from an invariant state stays invariant. -/
theorem foldl_run_RegInv (ops : List Op) (S : PE) (log : List Nat)
    (h : RegInv S) :
    RegInv (ops.foldl
      (fun acc op => ((applyOp acc.1 op).1, acc.2 ++ (applyOp acc.1 op).2))
      (S, log)).1 := by
  induction ops generalizing S log with
  | nil => exact h
  | cons op rest ih =>
    rw [List.foldl_cons]
    exact ih _ _ (applyOp_RegInv S op h)

/-- The fresh emitter satisfies the full registry invariant. -/
theorem initPE_RegInv : RegInv initPE := by
  refine ⟨?_, ?_, ?_, ?_, ?_, ?_, ?_⟩
  · intro kv hkv
    exact absurd hkv (List.not_mem_nil kv)
  · intro p hp
    exact absurd hp (List.not_mem_nil p)
  · intro g hg
    rcases stored_elim _ g hg with ⟨kv, hkv, _⟩ | ⟨kv, hkv, _⟩
    · exact absurd hkv (List.not_mem_nil kv)
    · exact absurd hkv (List.not_mem_nil kv)
  · intro kv hkv
    exact absurd hkv (List.not_mem_nil kv)
  · intro kv hkv
    exact absurd hkv (List.not_mem_nil kv)
  · intro p hp
    exact absurd hp (List.not_mem_nil p)
  · exact List.Pairwise.nil

/-- Every state reachable by a history of operations from a fresh emitter
satisfies the full registry invariant: in particular the hypotheses of the
round-trip and observability theorems hold on all reachable states. -/
theorem runPE_RegInv (ops : List Op) : RegInv (runPE ops).1 :=
  foldl_run_RegInv ops initPE [] initPE_RegInv
